import Mathlib

/-!
Verification of the wanix VFS core against its specification.

The Go source under `src/` is shallowly embedded below: each Go method
(`MapFS.ResolveFS`, `UnionFS.CreateContext`, `NS.Bind`, `Service.Alloc`, ...)
becomes an executable Lean function over an inductive `FS` type standing for
Go's `fs.FS` interface values. Mutable Go state (the namespace binding table,
the task service) is passed explicitly. Every interpreter function takes a
fuel argument, decremented on each nested method call; `Err.outOfFuel` never
arises for the runs the theorems talk about.

Operations return a `Res` pair: the Go result (as an `Except`) together with
a log of Create-method invocations `(service id, name)`, which is how
"no member's Creator is invoked" is made observable.
-/

namespace Wanix

/-- Error kinds of the fs package. A Go `*PathError` is collapsed to the kind
of its wrapped error, which is all `errors.Is` tests in the modelled code
observe. `depthExceeded` models the `fmt.Errorf("resolution depth exceeded
for path: %s", name)` error of `Resolve`; `outOfFuel` is an artifact of the
fuel discipline and corresponds to no Go behavior. -/
inductive Err where
  | notExist
  | invalid
  | permission
  | notSupported
  | depthExceeded (path : String)
  | outOfFuel
  | other (msg : String)
deriving DecidableEq, Repr

/-- Modelled from the spec: the per-operation context. Of the context values
the modelled code observes, only the read-only flag (`fs.IsReadOnly`)
influences behavior; origin and task identity are not observed by the
embedded operations, so they are omitted. -/
structure Ctx where
  readOnly : Bool
deriving DecidableEq, Repr

/-- `context.Background()` as used by the bare `Open`/`Create` wrappers. -/
def bgCtx : Ctx := ⟨false⟩

/-- Modelled from the spec: file metadata. Only the name and the
directory bit are observed by the embedded code; other mode bits, size and
times are ignored. -/
structure FileInfo where
  name : String
  isDir : Bool
deriving DecidableEq, Repr

/-- Modelled from the spec: an open file handle. A directory handle carries
its listing (`fskit.DirFile`); a regular handle records which service
produced it and for which name, which is how theorems observe where an open
was dispatched. `Stat` on a handle returns its carried info. -/
inductive File where
  | file (info : FileInfo) (srcId : Nat) (srcPath : String)
  | dir (info : FileInfo) (entries : List FileInfo)
deriving DecidableEq, Repr

def File.stat : File → FileInfo
  | .file i _ _ => i
  | .dir i _ => i

/-! ### Path utilities (spec section 4.1)

String scanning is done over the character lists underlying the strings, so
that every helper is a plain structural recursion the kernel can
evaluate. -/

/-- Split a character list at a separator (`strings.Split`). -/
def splitChar (c : Char) : List Char → List (List Char)
  | [] => [[]]
  | x :: xs =>
    if x == c then [] :: splitChar c xs
    else
      match splitChar c xs with
      | [] => [[x]]
      | seg :: rest => (x :: seg) :: rest

/-- Go `strings.HasPrefix(s, pre)`. -/
def hasPre (s pre : String) : Bool :=
  pre.data.isPrefixOf s.data

/-- Modelled from the spec: `valid(p)` — `p = "."` or `p` is non-empty,
contains no `..` and no empty segment (which also rules out a leading or
trailing slash). -/
def validPath (p : String) : Bool :=
  p == "." ||
    (p != "" && (splitChar '/' p.data).all (fun s => !s.isEmpty && s != ['.', '.']))

/-- `k` is a prefix-directory of `n`: `k == n` or `n` begins with `k ++ "/"`. -/
def prefixDir (k n : String) : Bool :=
  k == n || hasPre n (k ++ "/")

/-- Key order for `MatchPaths`: longer keys first, lexicographic tie-break. -/
def keyBefore (a b : String) : Bool :=
  b.length < a.length || (a.length == b.length && a ≤ b)

def matchRel (a b : String) : Prop := keyBefore a b = true

instance : DecidableRel matchRel := fun a b =>
  inferInstanceAs (Decidable (keyBefore a b = true))

instance : IsTotal String matchRel := by
  constructor
  intro a b
  by_cases h : a.length = b.length
  · rcases le_total a b with h2 | h2
    · exact Or.inl (by simp [matchRel, keyBefore, h, h2])
    · exact Or.inr (by simp [matchRel, keyBefore, h, h2])
  · rcases Nat.lt_or_ge a.length b.length with h2 | h2
    · exact Or.inr (by simp [matchRel, keyBefore, h2])
    · exact Or.inl (by simp [matchRel, keyBefore]; omega)

instance : IsTrans String matchRel := by
  constructor
  intro a b c hab hbc
  simp only [matchRel, keyBefore, Bool.or_eq_true, decide_eq_true_eq,
    Bool.and_eq_true, beq_iff_eq] at *
  rcases hab with h1 | ⟨h1, h1'⟩ <;> rcases hbc with h2 | ⟨h2, h2'⟩
  · exact Or.inl (by omega)
  · exact Or.inl (by omega)
  · exact Or.inl (by omega)
  · exact Or.inr ⟨by omega, le_trans h1' h2'⟩

/-- Modelled from the spec: `match_paths(keys, name)` — the subset of `keys`
that are prefix-directories of `name`, sorted longest first with a
deterministic lexicographic tie-break. -/
def MatchPaths (keys : List String) (name : String) : List String :=
  List.insertionSort matchRel (keys.filter (fun k => prefixDir k name))

/-- Go `strings.TrimPrefix(s, pre)`: drop `pre` if it prefixes `s`,
else return `s` unchanged. -/
def trimPrefixOf (s pre : String) : String :=
  if hasPre s pre then String.mk (s.data.drop pre.data.length) else s

/-- Go `strings.Trim(s, "/")`: drop all leading and trailing slashes. -/
def trimSlashes (s : String) : String :=
  String.mk (((s.data.dropWhile (· == '/')).reverse.dropWhile (· == '/')).reverse)

/-- Modelled from the spec: `join(a, b)` — standard path join with `.` (and
the empty string) as identity, as exercised on already-valid relative
paths. -/
def pathJoin (a b : String) : String :=
  if a == "" then b
  else if b == "" then a
  else if a == "." then b
  else if b == "." then a
  else a ++ "/" ++ b

/-- Go `path.Base` restricted to the valid relative paths it is applied to:
the last slash-separated segment (`"."` for the empty string). -/
def pathBase (s : String) : String :=
  if s == "" then "."
  else
    match (splitChar '/' s.data).reverse with
    | [] => "."
    | h :: _ => String.mk h

/-- The first slash-separated segment of `s`, when `s` contains a slash
(`strings.Index(s, "/") ≥ 0`); `none` when it has none. -/
def firstSeg (s : String) : Option String :=
  match splitChar '/' s.data with
  | [] => none
  | [_] => none
  | h :: _ :: _ => some (String.mk h)

/-! ### File services -/

/-- A Go `fs.FS` interface value, deeply embedded.

* `prim` is an arbitrary leaf service: the base `open` behavior plus the
  three optional capability sets (Creator, Stat, Resolver) as optional
  behavior functions, mirroring Go's runtime type assertions. Its `id` is
  the service identity.
* `mapfs` is `fskit.MapFS`. Go's `map[string]fs.FS` is represented as an
  association list; Go map range order is unspecified, and the list order
  stands for one admissible iteration order (lookups take the first match,
  which agrees with Go maps on duplicate-free keys).
* `unionfs` is `fskit.UnionFS` (an ordered slice of members).
* `ns` is `*vfs.NS`: its context and its binding table
  `map[string][]bindTarget`, again as an association list. A binding is a
  `(fs, path, cached FileInfo)` triple. -/
inductive FS where
  | prim (id : Nat)
      (openf : Ctx → String → Except Err File)
      (createf : Option (String → Except Err File))
      (statf : Option (Ctx → String → Except Err FileInfo))
      (resolvef : Option (Ctx → String → Except Err (FS × String)))
  | mapfs (id : Nat) (entries : List (String × FS))
  | unionfs (id : Nat) (members : List FS)
  | ns (id : Nat) (nsctx : Ctx) (bindings : List (String × List (FS × String × FileInfo)))

abbrev BindTarget := FS × String × FileInfo

abbrev NSData := List (String × List BindTarget)

/-- The stable identity of a service value. -/
def fsId : FS → Nat
  | .prim i _ _ _ _ => i
  | .mapfs i _ => i
  | .unionfs i _ => i
  | .ns i _ _ => i

/-- Modelled from the spec: `fs.Equal` — two service references are equal
iff they refer to the same live service instance; identities are the `id`
tags, assumed distinct across distinct live services. -/
def Equal (a b : FS) : Bool := fsId a == fsId b

/-- Go type assertion `.(fs.ResolveFS)`: `MapFS`, `UnionFS` and `NS` all
implement `ResolveFS`; a leaf does iff it carries a resolve behavior. -/
def isResolveFS : FS → Bool
  | .prim _ _ _ _ r => r.isSome
  | .mapfs _ _ => true
  | .unionfs _ _ => true
  | .ns _ _ _ => true

/-- Go type assertion `.(fs.CreateFS)`: `MapFS`, `UnionFS` and `NS` all
implement `Create`; a leaf does iff it carries a create behavior. -/
def isCreateFS : FS → Bool
  | .prim _ _ c _ _ => c.isSome
  | .mapfs _ _ => true
  | .unionfs _ _ => true
  | .ns _ _ _ => true

/-- Go type assertion `.(fs.StatContextFS)`: `MapFS` and `NS` implement
`StatContext`, `UnionFS` does not; a leaf does iff it carries a stat
behavior. -/
def hasStatCtx : FS → Bool
  | .prim _ _ _ s _ => s.isSome
  | .mapfs _ _ => true
  | .unionfs _ _ => false
  | .ns _ _ _ => true

/-! ### Results with a Create-invocation log -/

/-- A Create-method invocation event: the id of the service whose `Create`
was called, and the name it was called with. -/
abbrev Evt := Nat × String

/-- A Go result (value or error) together with the Create invocations the
operation performed. -/
abbrev Res (β : Type) := Except Err β × List Evt

def withLog {β : Type} (l : List Evt) (x : Res β) : Res β := (x.1, l ++ x.2)

def gasR {β : Type} : Res β := (.error .outOfFuel, [])

/-! ### Association-list helpers for Go maps -/

/-- `m[k]` on a Go `map[string][]T` (missing key yields the nil slice). -/
def lookupD (b : NSData) (k : String) : List BindTarget :=
  (b.lookup k).getD []

/-- `m[k] = v` on a Go map: replace in place if present, else add the key. -/
def setAssoc {α : Type} (b : List (String × α)) (k : String) (v : α) :
    List (String × α) :=
  if (b.lookup k).isSome then
    b.map (fun kv => if kv.1 == k then (k, v) else kv)
  else b ++ [(k, v)]

/-- `delete(m, k)` on a Go map. -/
def eraseAssoc {α : Type} (b : List (String × α)) (k : String) :
    List (String × α) :=
  b.filter (fun kv => !(kv.1 == k))

/-- Insertion into a Go `map[string]bool` used as a set, keeping first
insertion order. -/
def insertUniq (l : List String) (x : String) : List String :=
  if l.contains x then l else l ++ [x]

/-- The synthesized child-directory names of a root listing: the first
segment of every multi-segment key (`need` in the Go source). -/
def rootNeed (keys : List String) : List String :=
  keys.foldl (fun acc k =>
    match firstSeg k with
    | some seg => insertUniq acc seg
    | none => acc) []

/-- The synthesized child names below `name`: for every binding key
extending `name ++ "/"`, the first segment of the remainder when the
remainder is itself multi-segment (`need` of `NS.OpenContext`). -/
def childNeed (keys : List String) (name : String) : List String :=
  keys.foldl (fun acc k =>
    if hasPre k (name ++ "/") then
      match firstSeg (trimPrefixOf k (name ++ "/")) with
      | some seg => insertUniq acc seg
      | none => acc
    else acc) []

/-- First map entry whose key is a strict prefix directory of `name`
(`for p, subfs := range fsys` with `strings.HasPrefix(name, p+"/")`;
list order stands for Go's unspecified map range order). -/
def findPrefixEntry (es : List (String × FS)) (name : String) :
    Option (String × FS) :=
  es.find? (fun kv => hasPre name (kv.1 ++ "/"))

/-- First binding whose key is a strict prefix directory of `name` and whose
list is non-empty, yielding its first member (`NS.CreateContext`). -/
def findPrefixBinding (b : NSData) (name : String) :
    Option (String × BindTarget) :=
  match b.find? (fun kv => hasPre name (kv.1 ++ "/") && !kv.2.isEmpty) with
  | some (k, r :: _) => some (k, r)
  | _ => none

/-- The loop of `NS.ResolveFS` over `MatchPaths`: the first matched bind
path with a non-empty binding list, together with its first member. -/
def nsFindBind (b : NSData) : List String → Option (String × BindTarget)
  | [] => none
  | k :: ks =>
    match b.lookup k with
    | some (r :: _) => some (k, r)
    | _ => nsFindBind b ks

/-- `NS.ResolveFS` (src/vfs/vfs.go lines 80-107). It performs no nested
calls and never returns an error: a direct single binding resolves to its
target, a direct union binding resolves to the namespace itself, otherwise
the longest matching parent binding's first member is descended into. -/
def nsResolveFS (selfId : Nat) (nsctx : Ctx) (b : NSData) (name : String) :
    FS × String :=
  match b.lookup name with
  | some refs =>
    match refs with
    | [ref] => (ref.1, ref.2.1)
    | _ => (FS.ns selfId nsctx b, name)
  | none =>
    match nsFindBind b (MatchPaths (b.map Prod.fst) name) with
    | some (bindPath, ref) =>
      (ref.1, pathJoin ref.2.1 (trimSlashes (trimPrefixOf name bindPath)))
    | none => (FS.ns selfId nsctx b, name)

/-- Entry order for synthesized directory listings
(`slices.SortFunc(..., strings.Compare(a.name, b.name))`). -/
def nameRel (a b : FileInfo) : Prop := a.name ≤ b.name

instance : DecidableRel nameRel := fun a b =>
  inferInstanceAs (Decidable (a.name ≤ b.name))

/-- The shared tail of the directory-synthesis code of `MapFS.OpenContext`
and `NS.OpenContext`: drop `need` names already listed, append a synthesized
directory node for the rest, sort by name, wrap as a directory handle. -/
def assembleDir (name : String) (list : List FileInfo) (need : List String) :
    File :=
  let extra := (need.filter (fun nm => !(list.any (fun fi2 => fi2.name == nm)))).map
    (fun nm => ({ name := nm, isDir := true } : FileInfo))
  File.dir { name := name, isDir := true }
    (List.insertionSort nameRel (list ++ extra))

/-- The flattened subpath iteration of `NS.OpenContext`: for each matched
bind path (longest first), each of its bindings. -/
def nsSubPairs (b : NSData) (name : String) : List (String × BindTarget) :=
  ((MatchPaths (b.map Prod.fst) name).map
    (fun bp => (lookupD b bp).map (fun r => (bp, r)))).flatten

/-- The flattened root synthesis iteration of `NS.OpenContext` for `"."`:
each single-segment binding key other than `"."`, with each of its
bindings; the listing entry is named by the key. -/
def nsRootInfoPairs (b : NSData) : List (String × BindTarget) :=
  (b.map (fun kv =>
    if (firstSeg kv.1).isNone && kv.1 != "." then
      kv.2.map (fun r => (kv.1, r))
    else [])).flatten

/-- The flattened child synthesis iteration of `NS.OpenContext` for a
non-root `name`: each binding key that extends `name ++ "/"` by a single
segment, with each of its bindings. As in the source, the listing entry is
named by the full binding key. -/
def nsChildInfoPairs (b : NSData) (name : String) : List (String × BindTarget) :=
  (b.map (fun kv =>
    if (hasPre kv.1 (name ++ "/"))
        && (firstSeg (trimPrefixOf kv.1 (name ++ "/"))).isNone then
      kv.2.map (fun r => (kv.1, r))
    else [])).flatten

/-! ### The interpreter

Every function consumes one unit of fuel per call, so all recursion is
structural on the fuel. `resolveFS`, `openCtxFS`, `statCtxFS`, `createFS`,
`openFS` and `readDirCtx` are the interface-dispatch helpers of the fs
package (modelled from the spec's capability contracts: dispatch to the
corresponding capability method, with stat and readdir falling back to
open); the remaining functions are the methods of the source files named in
their doc comments. -/

set_option maxHeartbeats 3200000 in
mutual

/-- Interface dispatch for a `ResolveFS` method call. On a leaf without the
Resolver capability it returns `(self, name)`; the modelled callers all
test `isResolveFS` first, as the source does with a type assertion. -/
def resolveFS : Nat → Ctx → FS → String → Res (FS × String)
  | 0, _, _, _ => gasR
  | _ + 1, ctx, .prim i o c s r, name =>
    match r with
    | some f => (f ctx name, [])
    | none => (.ok (.prim i o c s r, name), [])
  | g + 1, ctx, .mapfs i es, name => mapResolveFS g ctx i es name
  | g + 1, ctx, .unionfs i ms, name => unionResolveFS g ctx i ms name
  | _ + 1, _, .ns i nc b, name => (.ok (nsResolveFS i nc b name), [])
  termination_by structural fuel => fuel

/-- `MapFS.ResolveFS` (src/fs/fskit/mapfs.go lines 26-59). An exact key
match resolves to the value (eagerly unwrapping it when it is itself a
resolver); otherwise the longest prefix-directory key is delegated to;
otherwise the MapFS is its own fixpoint. The `*Node` special cases of the
source do not arise here (`Node` is a leaf synthesized-file type). -/
def mapResolveFS : Nat → Ctx → Nat → List (String × FS) → String →
    Res (FS × String)
  | 0, _, _, _, _ => gasR
  | g + 1, ctx, i, es, name =>
    match es.lookup name with
    | some sub =>
      if isResolveFS sub then resolveFS g ctx sub "."
      else (.ok (sub, "."), [])
    | none =>
      match MatchPaths (es.map Prod.fst) name with
      | key :: _ =>
        let rel := trimSlashes (trimPrefixOf name key)
        match es.lookup key with
        | some sub =>
          if isResolveFS sub then resolveFS g ctx sub rel
          else (.ok (sub, rel), [])
        | none => (.ok (FS.mapfs i es, name), [])
      | [] => (.ok (FS.mapfs i es, name), [])
  termination_by structural fuel => fuel

/-- `UnionFS.ResolveFS` (src/fs/fskit/mapfs.go lines 291-348). -/
def unionResolveFS : Nat → Ctx → Nat → List FS → String → Res (FS × String)
  | 0, _, _, _, _ => gasR
  | g + 1, ctx, i, ms, name =>
    match ms with
    | [] => (.error .notExist, [])
    | [m] => (.ok (m, name), [])
    | _ =>
      if name == "." && ctx.readOnly then (.ok (FS.unionfs i ms, "."), [])
      else
        match unionResolveLoop1 g ctx name ms [] with
        | (.error e, l) => (.error e, l)
        | (.ok (.inl res), l) => (.ok res, l)
        | (.ok (.inr toStat), l1) =>
          match unionResolveLoop2 g ctx name toStat with
          | (.error e, l2) => (.error e, l1 ++ l2)
          | (.ok (some res), l2) => (.ok res, l1 ++ l2)
          | (.ok none, l2) => (.ok (FS.unionfs i ms, name), l1 ++ l2)
  termination_by structural fuel => fuel

/-- The first member pass of `UnionFS.ResolveFS`: ask each Resolver member
for one hop, swallowing `NOT_EXIST`, surfacing other errors immediately,
preferring a Creator-exposing result under a writable context, accepting
any moved resolution, and queueing the rest (and all non-Resolver members)
for the stat pass. -/
def unionResolveLoop1 : Nat → Ctx → String → List FS → List FS →
    Res ((FS × String) ⊕ List FS)
  | 0, _, _, _, _ => gasR
  | g + 1, ctx, name, [], acc => (.ok (.inr acc), [])
  | g + 1, ctx, name, m :: rest, acc =>
    if isResolveFS m then
      match resolveFS g ctx m name with
      | (.error e, l) =>
        if e = .notExist then withLog l (unionResolveLoop1 g ctx name rest acc)
        else (.error e, l)
      | (.ok (rfs, rn), l) =>
        if !ctx.readOnly && isCreateFS rfs then (.ok (.inl (rfs, rn)), l)
        else if rn != name || !Equal rfs m then (.ok (.inl (rfs, rn)), l)
        else withLog l (unionResolveLoop1 g ctx name rest (acc ++ [m]))
    else unionResolveLoop1 g ctx name rest (acc ++ [m])
  termination_by structural fuel => fuel

/-- The second (stat) pass of `UnionFS.ResolveFS`: the first queued member
whose stat succeeds wins, where under a writable context only
Creator-advertising members are accepted; every stat error is skipped. -/
def unionResolveLoop2 : Nat → Ctx → String → List FS →
    Res (Option (FS × String))
  | 0, _, _, _ => gasR
  | g + 1, ctx, name, [] => (.ok none, [])
  | g + 1, ctx, name, m :: rest =>
    match statCtxFS g ctx m name with
    | (.error _, l) => withLog l (unionResolveLoop2 g ctx name rest)
    | (.ok _, l) =>
      if ctx.readOnly then (.ok (some (m, name)), l)
      else if isCreateFS m then (.ok (some (m, name)), l)
      else withLog l (unionResolveLoop2 g ctx name rest)
  termination_by structural fuel => fuel

/-- Interface dispatch for `fs.StatContext`: use the StatContext capability
when advertised, else stat through open. `UnionFS` has no stat method, so a
union is statted by opening. -/
def statCtxFS : Nat → Ctx → FS → String → Res FileInfo
  | 0, _, _, _ => gasR
  | _ + 1, ctx, .prim _ o _ s _, name =>
    match s with
    | some sf => (sf ctx name, [])
    | none =>
      match o ctx name with
      | .ok f => (.ok f.stat, [])
      | .error e => (.error e, [])
  | g + 1, ctx, .mapfs i es, name => mapStatCtx g ctx i es name
  | g + 1, ctx, .unionfs i ms, name =>
    match unionOpenCtx g ctx i ms name with
    | (.error e, l) => (.error e, l)
    | (.ok f, l) => (.ok f.stat, l)
  | g + 1, ctx, .ns i nc b, name => nsStatCtx g ctx i nc b name
  termination_by structural fuel => fuel

/-- `MapFS.StatContext` (src/fs/fskit/mapfs.go lines 66-90). -/
def mapStatCtx : Nat → Ctx → Nat → List (String × FS) → String → Res FileInfo
  | 0, _, _, _, _ => gasR
  | g + 1, ctx, i, es, name =>
    if validPath name then
      if name == "." then (.ok { name := ".", isDir := true }, [])
      else
        match es.lookup name with
        | some sub => statCtxFS g ctx sub "."
        | none =>
          match openCtxFS g ctx (FS.mapfs i es) name with
          | (.error e, l) => (.error e, l)
          | (.ok f, l) => (.ok f.stat, l)
    else (.error .notExist, [])
  termination_by structural fuel => fuel

/-- Interface dispatch for `fs.OpenContext`: every embedded service has a
context-aware open. -/
def openCtxFS : Nat → Ctx → FS → String → Res File
  | 0, _, _, _ => gasR
  | _ + 1, ctx, .prim _ o _ _ _, name => (o ctx name, [])
  | g + 1, ctx, .mapfs i es, name => mapOpenCtx g ctx i es name
  | g + 1, ctx, .unionfs i ms, name => unionOpenCtx g ctx i ms name
  | g + 1, ctx, .ns i nc b, name => nsOpenCtx g ctx i nc b name
  termination_by structural fuel => fuel

/-- The bare `Open` methods: each wraps its context-aware open with a fresh
background context, except `NS.Open`, which uses the namespace's own
context. -/
def openFS : Nat → FS → String → Res File
  | 0, _, _ => gasR
  | _ + 1, .prim _ o _ _ _, name => (o bgCtx name, [])
  | g + 1, .mapfs i es, name => mapOpenCtx g bgCtx i es name
  | g + 1, .unionfs i ms, name => unionOpenCtx g bgCtx i ms name
  | g + 1, .ns i nc b, name => nsOpenCtx g nc i nc b name

/-- `MapFS.OpenContext` (src/fs/fskit/mapfs.go lines 98-196). An exact key
match delegates to the value's root; otherwise the first prefix-matching
key (in map iteration order, stood in for by list order) is delegated to;
otherwise a directory listing is synthesized. The `NamedFS` wrapping of the
source only renames the delegated root and is not modelled (`NamedFS` is
absent from the sources in view; the spec's open semantics delegate to the
value directly), and the `*Node` cases are as in `mapResolveFS`. -/
def mapOpenCtx : Nat → Ctx → Nat → List (String × FS) → String → Res File
  | 0, _, _, _, _ => gasR
  | g + 1, ctx, i, es, name =>
    if validPath name then
      match es.lookup name with
      | some sub => openCtxFS g ctx sub "."
      | none =>
        match findPrefixEntry es name with
        | some (p, sub) => openCtxFS g ctx sub (trimPrefixOf name (p ++ "/"))
        | none =>
          if name == "." then
            match mapOpenRootList g ctx es [] with
            | (.error e, l) => (.error e, l)
            | (.ok list0, l) =>
              (.ok (assembleDir name list0 (rootNeed (es.map Prod.fst))), l)
          else
            match mapOpenSubList g ctx (name ++ "/") es [] [] with
            | (.error e, l) => (.error e, l)
            | (.ok (list0, need0), l) =>
              if list0.isEmpty && need0.isEmpty then (.error .notExist, l)
              else (.ok (assembleDir name list0 need0), l)
    else (.error .notExist, [])
  termination_by structural fuel => fuel

/-- The root-listing loop of `MapFS.OpenContext` for `"."`: stat the value
of every single-segment key (skipping failures). Multi-segment keys
contribute to `need`, computed separately by `rootNeed`. -/
def mapOpenRootList : Nat → Ctx → List (String × FS) → List FileInfo →
    Res (List FileInfo)
  | 0, _, _, _ => gasR
  | g + 1, ctx, [], acc => (.ok acc, [])
  | g + 1, ctx, (fname, sub) :: rest, acc =>
    if (firstSeg fname).isNone then
      if fname != "." then
        match statCtxFS g ctx sub "." with
        | (.ok fi, l) =>
          withLog l (mapOpenRootList g ctx rest
            (acc ++ [{ name := fname, isDir := fi.isDir }]))
        | (.error _, l) => withLog l (mapOpenRootList g ctx rest acc)
      else mapOpenRootList g ctx rest acc
    else mapOpenRootList g ctx rest acc
  termination_by structural fuel => fuel

/-- The child-listing loop of `MapFS.OpenContext` for a non-root `name`:
every entry is statted first (failures skip the entry entirely, including
its `need` contribution), then keys extending `name ++ "/"` contribute a
listing entry or a `need` segment. -/
def mapOpenSubList : Nat → Ctx → String → List (String × FS) →
    List FileInfo → List String → Res (List FileInfo × List String)
  | 0, _, _, _, _, _ => gasR
  | g + 1, ctx, pre, [], acc, need => (.ok (acc, need), [])
  | g + 1, ctx, pre, (fname, sub) :: rest, acc, need =>
    match statCtxFS g ctx sub "." with
    | (.error _, l) => withLog l (mapOpenSubList g ctx pre rest acc need)
    | (.ok fi, l) =>
      if hasPre fname pre then
        let felem := trimPrefixOf fname pre
        match firstSeg felem with
        | none =>
          withLog l (mapOpenSubList g ctx pre rest
            (acc ++ [{ name := felem, isDir := fi.isDir }]) need)
        | some seg =>
          withLog l (mapOpenSubList g ctx pre rest acc (insertUniq need seg))
      else withLog l (mapOpenSubList g ctx pre rest acc need)
  termination_by structural fuel => fuel

/-- `UnionFS.OpenContext` (src/fs/fskit/mapfs.go lines 259-289). -/
def unionOpenCtx : Nat → Ctx → Nat → List FS → String → Res File
  | 0, _, _, _, _ => gasR
  | g + 1, ctx, i, ms, name =>
    if validPath name then
      match unionResolveFS g ctx i ms name with
      | (.error e, l) => (.error e, l)
      | (.ok (rfs, rn), l0) =>
        if rn != name || !Equal rfs (FS.unionfs i ms) then
          withLog l0 (openCtxFS g ctx rfs rn)
        else if name != "." then (.error .notExist, l0)
        else
          match unionReadDirAll g ctx ms name [] with
          | (.error e, l) => (.error e, l0 ++ l)
          | (.ok es, l) =>
            (.ok (File.dir { name := name, isDir := true } es), l0 ++ l)
    else (.error .invalid, [])
  termination_by structural fuel => fuel

/-- The root-merge loop of `UnionFS.OpenContext`: concatenate every
member's readdir, skipping members whose readdir fails. -/
def unionReadDirAll : Nat → Ctx → List FS → String → List FileInfo →
    Res (List FileInfo)
  | 0, _, _, _, _ => gasR
  | g + 1, ctx, [], name, acc => (.ok acc, [])
  | g + 1, ctx, m :: rest, name, acc =>
    match readDirCtx g ctx m name with
    | (.error _, l) => withLog l (unionReadDirAll g ctx rest name acc)
    | (.ok es, l) => withLog l (unionReadDirAll g ctx rest name (acc ++ es))
  termination_by structural fuel => fuel

/-- Interface dispatch for `fs.ReadDirContext`: open the name and read the
directory handle's entries. -/
def readDirCtx : Nat → Ctx → FS → String → Res (List FileInfo)
  | 0, _, _, _ => gasR
  | g + 1, ctx, fs, name =>
    match openCtxFS g ctx fs name with
    | (.error e, l) => (.error e, l)
    | (.ok (.dir _ es), l) => (.ok es, l)
    | (.ok (.file _ _ _), l) => (.error .notSupported, l)
  termination_by structural fuel => fuel

/-- `NS.OpenContext` (src/vfs/vfs.go lines 234-368). -/
def nsOpenCtx : Nat → Ctx → Nat → Ctx → NSData → String → Res File
  | 0, _, _, _, _, _ => gasR
  | g + 1, ctx, i, nc, b, name =>
    if validPath name then
      match nsOpenDirectLoop g ctx (lookupD b name) false [] with
      | (.error e, l) => (.error e, l)
      | (.ok (.inl f), l) => (.ok f, l)
      | (.ok (.inr (fd1, ents1)), l1) =>
        match nsOpenSubLoop g ctx name (nsSubPairs b name) fd1 ents1 with
        | (.error e, l2) => (.error e, l1 ++ l2)
        | (.ok (.inl f), l2) => (.ok f, l1 ++ l2)
        | (.ok (.inr (fd2, ents2)), l2) =>
          let pairs := if name == "." then nsRootInfoPairs b
            else nsChildInfoPairs b name
          let need0 := if name == "." then rootNeed (b.map Prod.fst)
            else childNeed (b.map Prod.fst) name
          match nsOpenInfoLoop g ctx pairs ents2 with
          | (.error e, l3) => (.error e, l1 ++ l2 ++ l3)
          | (.ok ents3, l3) =>
            if name != "." && ents3.isEmpty && need0.isEmpty && !fd2 then
              (.error .notExist, l1 ++ l2 ++ l3)
            else (.ok (assembleDir name ents3 need0), l1 ++ l2 ++ l3)
    else (.error .notExist, [])
  termination_by structural fuel => fuel

/-- The direct-binding loop of `NS.OpenContext`: a directory-typed binding
merges its readdir into the listing (readdir errors are returned), a
file-typed binding returns the first successful open (open errors are
skipped). -/
def nsOpenDirectLoop : Nat → Ctx → List BindTarget → Bool → List FileInfo →
    Res (File ⊕ (Bool × List FileInfo))
  | 0, _, _, _, _ => gasR
  | g + 1, ctx, [], fd, acc => (.ok (.inr (fd, acc)), [])
  | g + 1, ctx, ref :: rest, fd, acc =>
    if ref.2.2.isDir then
      match readDirCtx g ctx ref.1 ref.2.1 with
      | (.error e, l) => (.error e, l)
      | (.ok es, l) => withLog l (nsOpenDirectLoop g ctx rest true (acc ++ es))
    else
      match openCtxFS g ctx ref.1 ref.2.1 with
      | (.ok f, l) => (.ok (.inl f), l)
      | (.error _, l) => withLog l (nsOpenDirectLoop g ctx rest fd acc)
  termination_by structural fuel => fuel

/-- The subpath loop of `NS.OpenContext` over the flattened matched
bindings: stat the joined relative path (stat errors skip the binding), a
directory merges its readdir (readdir errors are returned), a file returns
the first successful open. -/
def nsOpenSubLoop : Nat → Ctx → String → List (String × BindTarget) →
    Bool → List FileInfo → Res (File ⊕ (Bool × List FileInfo))
  | 0, _, _, _, _, _ => gasR
  | g + 1, ctx, name, [], fd, acc => (.ok (.inr (fd, acc)), [])
  | g + 1, ctx, name, (bp, ref) :: rest, fd, acc =>
    let rel := pathJoin ref.2.1 (trimSlashes (trimPrefixOf name bp))
    match statCtxFS g ctx ref.1 rel with
    | (.error _, l) => withLog l (nsOpenSubLoop g ctx name rest fd acc)
    | (.ok fi, l0) =>
      if fi.isDir then
        match readDirCtx g ctx ref.1 rel with
        | (.error e, l) => (.error e, l0 ++ l)
        | (.ok es, l) =>
          withLog (l0 ++ l) (nsOpenSubLoop g ctx name rest true (acc ++ es))
      else
        match openCtxFS g ctx ref.1 rel with
        | (.ok f, l) => (.ok (.inl f), l0 ++ l)
        | (.error _, l) => withLog (l0 ++ l) (nsOpenSubLoop g ctx name rest fd acc)
  termination_by structural fuel => fuel

/-- The synthesized-parent info loop of `NS.OpenContext`
(`bindTarget.fileInfo`): stat each flattened `(entry name, binding)` pair,
appending a listing entry on success and skipping failures. -/
def nsOpenInfoLoop : Nat → Ctx → List (String × BindTarget) →
    List FileInfo → Res (List FileInfo)
  | 0, _, _, _ => gasR
  | g + 1, ctx, [], acc => (.ok acc, [])
  | g + 1, ctx, (nm, ref) :: rest, acc =>
    match statCtxFS g ctx ref.1 ref.2.1 with
    | (.ok fi, l) =>
      withLog l (nsOpenInfoLoop g ctx rest
        (acc ++ [{ name := nm, isDir := fi.isDir }]))
    | (.error _, l) => withLog l (nsOpenInfoLoop g ctx rest acc)
  termination_by structural fuel => fuel

/-- `NS.StatContext` (src/vfs/vfs.go lines 178-225). -/
def nsStatCtx : Nat → Ctx → Nat → Ctx → NSData → String → Res FileInfo
  | 0, _, _, _, _, _ => gasR
  | g + 1, ctx, i, nc, b, name =>
    if validPath name then
      if name == "." then (.ok { name := ".", isDir := true }, [])
      else
        match b.lookup name with
        | some refs =>
          match nsStatDirectLoop g ctx refs (pathBase name) with
          | (.error e, l) => (.error e, l)
          | (.ok (some fi), l) => (.ok fi, l)
          | (.ok none, l0) => withLog l0 (nsStatTail g ctx (FS.ns i nc b) name)
        | none => nsStatTail g ctx (FS.ns i nc b) name
    else (.error .notExist, [])
  termination_by structural fuel => fuel

/-- The direct-binding loop of `NS.StatContext`: the first binding whose
live stat succeeds answers, renamed to the last segment of the name. -/
def nsStatDirectLoop : Nat → Ctx → List BindTarget → String →
    Res (Option FileInfo)
  | 0, _, _, _ => gasR
  | g + 1, ctx, [], base => (.ok none, [])
  | g + 1, ctx, ref :: rest, base =>
    match statCtxFS g ctx ref.1 ref.2.1 with
    | (.ok fi, l) => (.ok (some { name := base, isDir := fi.isDir }), l)
    | (.error _, l) => withLog l (nsStatDirectLoop g ctx rest base)
  termination_by structural fuel => fuel

/-- The tail of `NS.StatContext`: try `ResolveTo[StatContextFS]`; a
non-`NOT_SUPPORTED` error is returned, a successful typed resolution to a
service other than the namespace itself is statted, and otherwise the
plain resolve-open-stat path runs. -/
def nsStatTail : Nat → Ctx → FS → String → Res FileInfo
  | 0, _, _, _ => gasR
  | g + 1, ctx, self, name =>
    match resolveToStat g ctx self name with
    | (.error e, l) =>
      if e = .notSupported then withLog l (nsStatFinal g ctx self name)
      else (.error e, l)
    | (.ok (t, tn), l) =>
      if !Equal t self then withLog l (statCtxFS g ctx t tn)
      else withLog l (nsStatFinal g ctx self name)
  termination_by structural fuel => fuel

/-- The final fallback of `NS.StatContext`: `fs.Resolve`, then open the
resolved name and stat the handle. -/
def nsStatFinal : Nat → Ctx → FS → String → Res FileInfo
  | 0, _, _, _ => gasR
  | g + 1, ctx, self, name =>
    match ResolveGo g ctx name 100 self name with
    | (.error e, l) => (.error e, l)
    | (.ok (rfs, rn), l) =>
      match openCtxFS g ctx rfs rn with
      | (.error e, l2) => (.error e, l ++ l2)
      | (.ok f, l2) => (.ok f.stat, l ++ l2)
  termination_by structural fuel => fuel

/-- `fs.ResolveTo[fs.StatContextFS]` (src/fs/resolve.go lines 15-39): run
the recursive resolver, attempt one extra resolve step (kept only when it
succeeds and moves), then require the StatContext capability on the
result. -/
def resolveToStat : Nat → Ctx → FS → String → Res (FS × String)
  | 0, _, _, _ => gasR
  | g + 1, ctx, fs0, name =>
    match ResolveGo g ctx name 100 fs0 name with
    | (.error e, l) => (.error e, l)
    | (.ok (rfs, rn), l0) =>
      if isResolveFS rfs then
        match resolveFS g ctx rfs rn with
        | (.ok (rr, rn2), l1) =>
          if !Equal rr rfs || rn2 != rn then
            if hasStatCtx rr then (.ok (rr, rn2), l0 ++ l1)
            else (.error .notSupported, l0 ++ l1)
          else
            if hasStatCtx rfs then (.ok (rfs, rn), l0 ++ l1)
            else (.error .notSupported, l0 ++ l1)
        | (.error _, l1) =>
          if hasStatCtx rfs then (.ok (rfs, rn), l0 ++ l1)
          else (.error .notSupported, l0 ++ l1)
      else
        if hasStatCtx rfs then (.ok (rfs, rn), l0)
        else (.error .notSupported, l0)
  termination_by structural fuel => fuel

/-- The loop of `fs.Resolve` (src/fs/resolve.go lines 46-73) with its hop
budget `k` (100 at entry): stop at a non-resolver or at a fixpoint,
propagate resolver errors, and fail with the depth error when the budget
runs out. -/
def ResolveGo : Nat → Ctx → String → Nat → FS → String → Res (FS × String)
  | 0, _, _, _, _, _ => gasR
  | _ + 1, _, n0, 0, _, _ => (.error (.depthExceeded n0), [])
  | g + 1, ctx, n0, k + 1, cur, nm =>
    if isResolveFS cur then
      match resolveFS g ctx cur nm with
      | (.error e, l) => (.error e, l)
      | (.ok (nf, nn), l) =>
        if Equal nf cur && nn == nm then (.ok (cur, nm), l)
        else withLog l (ResolveGo g ctx n0 k nf nn)
    else (.ok (cur, nm), [])
  termination_by structural fuel => fuel

/-- Interface dispatch for a bare `Create` method call (`cfs.Create(name)`),
logging the invocation. The composite `Create` wrappers enter their
`CreateContext` with a fresh background context, except `NS.Create`, which
uses the namespace's context. -/
def createFS : Nat → FS → String → Res File
  | 0, _, _ => gasR
  | _ + 1, .prim i _ c _ _, name =>
    match c with
    | some cf => (cf name, [(i, name)])
    | none => (.error .notSupported, [])
  | g + 1, .mapfs i es, name => withLog [(i, name)] (mapCreateCtx g bgCtx i es name)
  | g + 1, .unionfs i ms, name => withLog [(i, name)] (unionCreateCtx g bgCtx i ms name)
  | g + 1, .ns i nc b, name => withLog [(i, name)] (nsCreateCtx g nc i nc b name)
  termination_by structural fuel => fuel

/-- `MapFS.CreateContext` (src/fs/fskit/mapfs.go lines 205-239). -/
def mapCreateCtx : Nat → Ctx → Nat → List (String × FS) → String → Res File
  | 0, _, _, _, _ => gasR
  | g + 1, ctx, i, es, name =>
    if validPath name then
      match es.lookup name with
      | some sub =>
        if isCreateFS sub then createFS g sub "."
        else openCtxFS g ctx sub "."
      | none =>
        match findPrefixEntry es name with
        | some (p, sub) =>
          let subPath := trimPrefixOf name (p ++ "/")
          if isCreateFS sub then createFS g sub subPath
          else openCtxFS g ctx sub subPath
        | none => (.error .notExist, [])
    else (.error .invalid, [])
  termination_by structural fuel => fuel

/-- `UnionFS.CreateContext` (src/fs/fskit/mapfs.go lines 357-393). -/
def unionCreateCtx : Nat → Ctx → Nat → List FS → String → Res File
  | 0, _, _, _, _ => gasR
  | g + 1, ctx, i, ms, name =>
    if validPath name then
      match unionCreateLoop1 g ms name with
      | (.error e, l) => (.error e, l)
      | (.ok (some f), l) => (.ok f, l)
      | (.ok none, l1) =>
        match unionCreateLoop2 g ctx ms name with
        | (.error e, l2) => (.error e, l1 ++ l2)
        | (.ok (some f), l2) => (.ok f, l1 ++ l2)
        | (.ok none, l2) => (.error .notExist, l1 ++ l2)
    else (.error .invalid, [])
  termination_by structural fuel => fuel

/-- The creator pass of `UnionFS.CreateContext`: attempt `Create` on every
Creator-advertising member in order; the first success wins, `NOT_EXIST`
moves on, any other error is returned. Non-creator members are skipped. -/
def unionCreateLoop1 : Nat → List FS → String → Res (Option File)
  | 0, _, _ => gasR
  | g + 1, [], name => (.ok none, [])
  | g + 1, m :: rest, name =>
    if isCreateFS m then
      match createFS g m name with
      | (.ok f, l) => (.ok (some f), l)
      | (.error e, l) =>
        if e = .notExist then withLog l (unionCreateLoop1 g rest name)
        else (.error e, l)
    else unionCreateLoop1 g rest name
  termination_by structural fuel => fuel

/-- The open fallback pass of `UnionFS.CreateContext`: open the name on
each member in order; the first success wins, `NOT_EXIST` moves on, any
other error is returned. -/
def unionCreateLoop2 : Nat → Ctx → List FS → String → Res (Option File)
  | 0, _, _, _ => gasR
  | g + 1, ctx, [], name => (.ok none, [])
  | g + 1, ctx, m :: rest, name =>
    match openCtxFS g ctx m name with
    | (.ok f, l) => (.ok (some f), l)
    | (.error e, l) =>
      if e = .notExist then withLog l (unionCreateLoop2 g ctx rest name)
      else (.error e, l)
  termination_by structural fuel => fuel

/-- `NS.CreateContext` (src/vfs/vfs.go lines 377-422). -/
def nsCreateCtx : Nat → Ctx → Nat → Ctx → NSData → String → Res File
  | 0, _, _, _, _, _ => gasR
  | g + 1, ctx, i, nc, b, name =>
    if validPath name then
      match b.lookup name with
      | some (ref :: _) =>
        if isCreateFS ref.1 then createFS g ref.1 ref.2.1
        else openCtxFS g ctx ref.1 ref.2.1
      | _ =>
        match findPrefixBinding b name with
        | some (bname, ref) =>
          let sub := pathJoin ref.2.1 (trimPrefixOf name (bname ++ "/"))
          if isCreateFS ref.1 then createFS g ref.1 sub
          else openCtxFS g ctx ref.1 sub
        | none => (.error .notExist, [])
    else (.error .invalid, [])
  termination_by structural fuel => fuel

end

/-- `fs.Resolve` (src/fs/resolve.go lines 46-73): the central recursive
resolver, bounded at 100 hops. -/
def Resolve (fuel : Nat) (ctx : Ctx) (fs0 : FS) (name0 : String) :
    Res (FS × String) :=
  ResolveGo fuel ctx name0 100 fs0 name0

/-! ### Namespace mutation -/

/-- `NS.Bind` (src/vfs/vfs.go lines 136-171): validate both paths
(failures yield `NOT_EXIST`), resolve the source through `fs.Resolve` with
the namespace's context, open and stat it to cache its `FileInfo`, then
insert the binding at the destination according to the mode: `""`/`"after"`
prepends, `"before"` appends, `"replace"` replaces the list; any other mode
yields `INVALID`. -/
def nsBind (fuel : Nat) (nsctx : Ctx) (b : NSData) (src : FS)
    (srcPath dstPath mode : String) : Res NSData :=
  if validPath srcPath then
    if validPath dstPath then
      match Resolve fuel nsctx src srcPath with
      | (.error e, l) => (.error e, l)
      | (.ok (rfs, rn), l0) =>
        match openFS fuel rfs rn with
        | (.error e, l1) => (.error e, l0 ++ l1)
        | (.ok file, l1) =>
          let ref : BindTarget := (rfs, rn, file.stat)
          if mode == "" || mode == "after" then
            (.ok (setAssoc b dstPath (ref :: lookupD b dstPath)), l0 ++ l1)
          else if mode == "before" then
            (.ok (setAssoc b dstPath (lookupD b dstPath ++ [ref])), l0 ++ l1)
          else if mode == "replace" then
            (.ok (setAssoc b dstPath [ref]), l0 ++ l1)
          else (.error .invalid, l0 ++ l1)
    else (.error .notExist, [])
  else (.error .notExist, [])

/-- `NS.Unbind` (src/vfs/vfs.go lines 109-131): validate both paths
(failures yield `NOT_EXIST`), resolve the source exactly as `Bind` does,
remove every binding at the destination whose resolved service and path
equal it (service identity, path equality), and delete the key when the
remaining list is empty. -/
def nsUnbind (fuel : Nat) (nsctx : Ctx) (b : NSData) (src : FS)
    (srcPath dstPath : String) : Res NSData :=
  if validPath srcPath then
    if validPath dstPath then
      match Resolve fuel nsctx src srcPath with
      | (.error e, l) => (.error e, l)
      | (.ok (rfs, rn), l) =>
        let remaining := (lookupD b dstPath).filter
          (fun ref => !(Equal ref.1 rfs && ref.2.1 == rn))
        if remaining.isEmpty then (.ok (eraseAssoc b dstPath), l)
        else (.ok (setAssoc b dstPath remaining), l)
    else (.error .notExist, [])
  else (.error .notExist, [])

/-- A live namespace object: its context and binding table. -/
structure NSVal where
  nctx : Ctx
  bindings : NSData

/-- `NS.Clone` (src/vfs/vfs.go lines 56-65): a freshly allocated map with
every binding list cloned element-wise (`slices.Clone`), under the given
new context. The elements are struct copies that still reference the same
underlying services and cached infos, so at the value level the copied
table is equal to the original; what `Clone` freshens is the object
identity, modelled by `worldClone` below. -/
def cloneNS (n : NSVal) (ctx2 : Ctx) : NSVal :=
  ⟨ctx2, n.bindings.map (fun kv => (kv.1, kv.2.map (fun r => r)))⟩

/-- A heap of live namespace objects; a Go `*NS` pointer is an index into
it. Mutating one object (`Bind`/`Unbind`) rewrites only its own slot. -/
abbrev World := List NSVal

/-- Cloning namespace `i` allocates a fresh object at a fresh index
(`make(map[string][]bindTarget)` in the source). -/
def worldClone (w : World) (i : Nat) (ctx2 : Ctx) : World × Nat :=
  match w[i]? with
  | some nsv => (w ++ [cloneNS nsv ctx2], w.length)
  | none => (w, i)

/-- `Bind` on the namespace object at index `i` (a no-op slot-wise when the
bind fails, since the table is only reassigned on success). -/
def worldBind (fuel : Nat) (w : World) (i : Nat) (src : FS)
    (srcPath dstPath mode : String) : World :=
  match w[i]? with
  | none => w
  | some nsv =>
    match (nsBind fuel nsv.nctx nsv.bindings src srcPath dstPath mode).1 with
    | .ok b2 => w.set i ⟨nsv.nctx, b2⟩
    | .error _ => w

/-- `Unbind` on the namespace object at index `i`. -/
def worldUnbind (fuel : Nat) (w : World) (i : Nat) (src : FS)
    (srcPath dstPath : String) : World :=
  match w[i]? with
  | none => w
  | some nsv =>
    match (nsUnbind fuel nsv.nctx nsv.bindings src srcPath dstPath).1 with
    | .ok b2 => w.set i ⟨nsv.nctx, b2⟩
    | .error _ => w

/-! ### The task service -/

/-- A task resource (src/task/service.go), as far as `Alloc` constructs
it: the numeric id, the kind, the names of the three fd pipe ends and of
their service-side peers (the pipe objects themselves are opaque), the
task's namespace, and the parent's id. The starter is only looked up by
`Alloc`, never run, so it is not carried. -/
structure Resource where
  rid : Nat
  typ : String
  fdNames : List String
  sysNames : List String
  rns : NSVal
  parentId : Option Nat

/-- The task service state (src/task/service.go `Service`): registered
kinds (starters as opaque tags), the live resources keyed by decimal id
string, and the id counter. -/
structure Service where
  types : List (String × Nat)
  resources : List (String × Resource)
  nextID : Nat

/-- `Service.Alloc` (src/task/service.go lines 45-82). An unregistered
kind fails with `NOT_EXIST` before any state is touched; otherwise the id
counter is bumped, the three pipes are built, the namespace is cloned from
the parent (or fresh), and the resource is registered under its id
string. The task-identity context of the source is not modelled (`Ctx`
carries only the read-only flag), so the clone receives the background
context. -/
def Service.Alloc (d : Service) (kind : String) (parent : Option Resource) :
    Except Err Resource × Service :=
  match d.types.lookup kind with
  | none => (.error .notExist, d)
  | some _ =>
    let nid := d.nextID + 1
    let pns : NSVal :=
      match parent with
      | some p => cloneNS p.rns bgCtx
      | none => ⟨bgCtx, []⟩
    let r : Resource :=
      ⟨nid, kind, ["0", "1", "2"], ["fd0", "fd1", "fd2"], pns,
        parent.map Resource.rid⟩
    (.ok r, ⟨d.types, setAssoc d.resources (toString nid) r, nid⟩)

/-! ### The abstract driver step, for reasoning about `Resolve` -/

/-- One iteration of the `Resolve` loop, abstractly: stop (the current
service is no resolver, or its resolve step is the identity fixpoint),
fail (the resolve step errored), or hop to the next pair. -/
inductive StepRes where
  | stop (p : FS × String)
  | next (p : FS × String)
  | fail (e : Err)

def driverStep (fuel : Nat) (ctx : Ctx) (p : FS × String) : StepRes :=
  if isResolveFS p.1 then
    match (resolveFS fuel ctx p.1 p.2).1 with
    | .error e => .fail e
    | .ok q => if Equal q.1 p.1 && q.2 == p.2 then .stop p else .next q
  else .stop p

/-- `Steps ctx f p i g q`: starting from pair `p` with fuel `f`, `i`
consecutive `next` hops of the driver reach pair `q` with fuel `g` left
(each hop consumes one fuel unit, exactly as `ResolveGo` does). -/
inductive Steps (ctx : Ctx) : Nat → (FS × String) → Nat → Nat → (FS × String) → Prop where
  | refl (f : Nat) (p : FS × String) : Steps ctx f p 0 f p
  | cons {f i g : Nat} {p q r : FS × String} :
      driverStep f ctx p = .next q → Steps ctx f q i g r →
      Steps ctx (f + 1) p (i + 1) g r

def failOpen : Ctx → String → Except Err File := fun _ _ => .error .notExist

/-- A resolver chain on which every hop the driver takes yields a fresh,
non-identity-equal service: `spinner (k+1)` resolves to `spinner k` (a
distinct id) with the name unchanged; `spinner 0` resolves to a fresh
plain leaf. -/
def spinner : Nat → FS
  | 0 => FS.prim 1000 failOpen none none
      (some fun _ nm => .ok (FS.prim 999 failOpen none none none, nm))
  | k + 1 => FS.prim (1001 + k) failOpen none none
      (some fun _ nm => .ok (spinner k, nm))

/-! ## Concrete services used by witnesses and counterexamples -/

/-- A plain leaf whose open succeeds and records where it was invoked. -/
def c2Leaf : FS := FS.prim 9 (fun _ nm => .ok (.file ⟨"x", false⟩ 9 nm)) none none none

/-- A resolver leaf whose single hop moves to `c2Leaf` at name `"sub"`. -/
def c2Inner : FS := FS.prim 7 failOpen none none (some fun _ _ => .ok (c2Leaf, "sub"))

def c7X : FS := FS.prim 21 (fun _ nm => .ok (.file ⟨"X", false⟩ 21 nm)) none none none

def c7Y : FS := FS.prim 22 (fun _ nm => .ok (.file ⟨"Y", false⟩ 22 nm)) none none none

/-! ## Claims -/

/-- C10: allocating a task of an unregistered kind fails with `NOT_EXIST`
and leaves the service state unchanged — the id counter is not bumped and
the registry gains no entry — so any later allocation behaves exactly as
if the failed one had never happened. -/
theorem C10_alloc_unregistered (d : Service) (kind : String)
    (parent : Option Resource) (h : d.types.lookup kind = none) :
    Service.Alloc d kind parent = (.error .notExist, d) ∧
    ∀ k2 p2, Service.Alloc (Service.Alloc d kind parent).2 k2 p2 =
      Service.Alloc d k2 p2 := by
  refine ⟨by simp [Service.Alloc, h], ?_⟩
  intro k2 p2
  simp [Service.Alloc, h]

/-- Witness for C10 at a concrete one-kind service. -/
theorem C10_alloc_unregistered_witness :
    Service.Alloc ⟨[("ns", 0)], [], 0⟩ "nope" none =
      (.error .notExist, ⟨[("ns", 0)], [], 0⟩) ∧
    ∀ k2 p2,
      Service.Alloc (Service.Alloc ⟨[("ns", 0)], [], 0⟩ "nope" none).2 k2 p2 =
        Service.Alloc ⟨[("ns", 0)], [], 0⟩ k2 p2 :=
  C10_alloc_unregistered ⟨[("ns", 0)], [], 0⟩ "nope" none rfl

/-- C2 (amended): on an exact key match, `MapFS.ResolveFS` returns
`(value, ".")` only when the value does not itself implement the Resolver
capability; when it does, the MapFS immediately invokes the value's own
resolve step on `"."` and returns its result, rather than leaving the
unwrapping to the next iteration of the central driver. -/
theorem C2_mapfs_exact_resolve (fuel : Nat) (ctx : Ctx) (i : Nat)
    (es : List (String × FS)) (n : String) (v : FS)
    (hl : es.lookup n = some v) :
    (isResolveFS v = false →
      mapResolveFS (fuel + 1) ctx i es n = (.ok (v, "."), [])) ∧
    (isResolveFS v = true →
      mapResolveFS (fuel + 1) ctx i es n = resolveFS fuel ctx v ".") := by
  constructor <;> intro h <;> simp [mapResolveFS, hl, h]

/-- Witness for C2 on a two-entry map: a non-resolver value is returned as
`(value, ".")`. -/
theorem C2_mapfs_exact_resolve_witness :
    mapResolveFS 3 bgCtx 1 [("k", c2Leaf)] "k" = (.ok (c2Leaf, "."), []) :=
  (C2_mapfs_exact_resolve 2 bgCtx 1 [("k", c2Leaf)] "k" c2Leaf rfl).1 rfl

/-- Counterexample for C2 as stated: with a resolver-valued entry, the map
resolve step does NOT return `(value, ".")` — it already performs the
value's hop, yielding `(c2Leaf, "sub")` instead of `(c2Inner, ".")`. -/
theorem C2_counterexample :
    (mapResolveFS 2 bgCtx 1 [("k", c2Inner)] "k").1 = .ok (c2Leaf, "sub") ∧
    (mapResolveFS 2 bgCtx 1 [("k", c2Inner)] "k").1 ≠ .ok (c2Inner, ".") := by
  refine ⟨rfl, ?_⟩
  rw [show (mapResolveFS 2 bgCtx 1 [("k", c2Inner)] "k").1 =
    .ok (c2Leaf, "sub") from rfl]
  intro h
  have h2 := (Except.ok.injEq _ _).mp h
  have h3 : "sub" = "." := congrArg Prod.snd h2
  exact absurd h3 (by decide)

/-- C6 (amended): on an argument that fails path validation, the create
entry points of MapFS, UnionFS and NS, and UnionFS's open, fail with the
`INVALID` kind, while the open and stat entry points of MapFS and NS and
both path validations of `NS.Bind` and `NS.Unbind` fail with `NOT_EXIST`
(the source wraps `fs.ErrNotExist`, not `fs.ErrInvalid`, at those entry
points). -/
theorem C6_validation_errors (fuel : Nat) (ctx : Ctx) (i : Nat)
    (es : List (String × FS)) (ms : List FS) (nc : Ctx) (b : NSData)
    (src : FS) (sp mode : String) (n : String) (h : validPath n = false) :
    (mapOpenCtx (fuel + 1) ctx i es n).1 = .error .notExist ∧
    (mapStatCtx (fuel + 1) ctx i es n).1 = .error .notExist ∧
    (mapCreateCtx (fuel + 1) ctx i es n).1 = .error .invalid ∧
    (unionOpenCtx (fuel + 1) ctx i ms n).1 = .error .invalid ∧
    (unionCreateCtx (fuel + 1) ctx i ms n).1 = .error .invalid ∧
    (nsOpenCtx (fuel + 1) ctx i nc b n).1 = .error .notExist ∧
    (nsStatCtx (fuel + 1) ctx i nc b n).1 = .error .notExist ∧
    (nsCreateCtx (fuel + 1) ctx i nc b n).1 = .error .invalid ∧
    (nsBind fuel nc b src n sp mode).1 = .error .notExist ∧
    (nsBind fuel nc b src sp n mode).1 = .error .notExist ∧
    (nsUnbind fuel nc b src n sp).1 = .error .notExist ∧
    (nsUnbind fuel nc b src sp n).1 = .error .notExist := by
  refine ⟨?_, ?_, ?_, ?_, ?_, ?_, ?_, ?_, ?_, ?_, ?_, ?_⟩
  · simp [mapOpenCtx, h]
  · simp [mapStatCtx, h]
  · simp [mapCreateCtx, h]
  · simp [unionOpenCtx, h]
  · simp [unionCreateCtx, h]
  · simp [nsOpenCtx, h]
  · simp [nsStatCtx, h]
  · simp [nsCreateCtx, h]
  · simp [nsBind, h]
  · by_cases h2 : validPath sp = true <;> simp [nsBind, h, h2]
  · simp [nsUnbind, h]
  · by_cases h2 : validPath sp = true <;> simp [nsUnbind, h, h2]

/-- Witness for C6 at the invalid path `".."`. -/
theorem C6_validation_errors_witness :
    (mapOpenCtx 1 bgCtx 0 [] "..").1 = .error .notExist :=
  (C6_validation_errors 0 bgCtx 0 [] [] bgCtx [] c2Leaf "x" "after" ".." rfl).1

/-- Counterexample for C6 as stated: `MapFS.OpenContext` on `".."` fails
with `NOT_EXIST`, not with the `INVALID` kind the claim requires of every
path-validating operation. -/
theorem C6_counterexample :
    validPath ".." = false ∧
    (mapOpenCtx 1 bgCtx 1 [] "..").1 = .error .notExist ∧
    Err.notExist ≠ Err.invalid := by
  exact ⟨rfl, rfl, by decide⟩

/-- `find?` picks the marked element when everything before it fails the
predicate. -/
theorem find?_first {α : Type} (p : α → Bool) (pre post : List α) (x : α)
    (h1 : ∀ y ∈ pre, p y = false) (hx : p x = true) :
    (pre ++ x :: post).find? p = some x := by
  induction pre with
  | nil => simp [List.find?_cons, hx]
  | cons a as ih =>
    have ha : p a = false := h1 a (by simp)
    simp only [List.cons_append, List.find?_cons, ha]
    exact ih (fun y hy => h1 y (by simp [hy]))

/-- C7 (amended): when `n` matches no exact key, `MapFS` open and create
delegate to the value of the FIRST key (in map iteration order, stood in
for by the entry-list order) whose `k ++ "/"` prefixes `n`, with relative
name `trim_prefix(n, k + "/")`; the chosen key is not necessarily the
longest match, and Go map iteration order makes the choice unspecified
across calls — the longest-first `MatchPaths` rule applies only to the
resolve path. -/
theorem C7_map_prefix_delegation (fuel : Nat) (ctx : Ctx) (i : Nat)
    (pre post : List (String × FS)) (k : String) (v : FS) (n : String)
    (hv : validPath n = true)
    (hex : (pre ++ (k, v) :: post).lookup n = none)
    (hpre : ∀ p ∈ pre, hasPre n (p.1 ++ "/") = false)
    (hk : hasPre n (k ++ "/") = true) :
    mapOpenCtx (fuel + 1) ctx i (pre ++ (k, v) :: post) n =
      openCtxFS fuel ctx v (trimPrefixOf n (k ++ "/")) ∧
    mapCreateCtx (fuel + 1) ctx i (pre ++ (k, v) :: post) n =
      (if isCreateFS v then createFS fuel v (trimPrefixOf n (k ++ "/"))
       else openCtxFS fuel ctx v (trimPrefixOf n (k ++ "/"))) := by
  have hfind : findPrefixEntry (pre ++ (k, v) :: post) n = some (k, v) := by
    unfold findPrefixEntry
    exact find?_first _ pre post (k, v) (fun y hy => hpre y hy) hk
  constructor
  · simp only [mapOpenCtx, hv, if_true, hex, hfind]
  · simp only [mapCreateCtx, hv, if_true, hex, hfind]

/-- Witness for C7: with a non-matching entry first, open of `"a/b/c"`
delegates to the `"a"` entry with relative name `"b/c"`. -/
theorem C7_map_prefix_delegation_witness :
    mapOpenCtx 2 bgCtx 1 [("z", c7Y), ("a", c7X)] "a/b/c" =
      openCtxFS 1 bgCtx c7X (trimPrefixOf "a/b/c" ("a" ++ "/")) :=
  (C7_map_prefix_delegation 1 bgCtx 1 [("z", c7Y)] [] "a" c7X "a/b/c" rfl rfl
    (by intro p hp; rw [List.mem_singleton] at hp; subst hp; rfl) rfl).1

/-- A `keyBefore` earlier key is at least as long. -/
theorem keyBefore_length {a b : String} (h : keyBefore a b = true) :
    b.length ≤ a.length := by
  simp only [keyBefore, Bool.or_eq_true, decide_eq_true_eq, Bool.and_eq_true,
    beq_iff_eq] at h
  rcases h with h | ⟨h, _⟩ <;> omega

/-- The head of `MatchPaths` is a prefix-directory match of maximal
length. -/
theorem matchPaths_head_longest {keys : List String} {name k : String}
    {ks : List String} (h : MatchPaths keys name = k :: ks) :
    k ∈ keys ∧ prefixDir k name = true ∧
      ∀ k2 ∈ keys, prefixDir k2 name = true → k2.length ≤ k.length := by
  have hperm := List.perm_insertionSort matchRel
    (keys.filter (fun x => prefixDir x name))
  have hsort := List.sorted_insertionSort matchRel
    (keys.filter (fun x => prefixDir x name))
  rw [MatchPaths] at h
  rw [h] at hperm hsort
  have hkmem : k ∈ keys.filter (fun x => prefixDir x name) :=
    hperm.subset (List.mem_cons_self k ks)
  rw [List.mem_filter] at hkmem
  refine ⟨hkmem.1, hkmem.2, ?_⟩
  intro k2 hk2 hp2
  have hmem2 : k2 ∈ k :: ks := hperm.mem_iff.mpr (List.mem_filter.mpr ⟨hk2, hp2⟩)
  rcases List.mem_cons.mp hmem2 with rfl | hmem2
  · exact le_refl _
  · exact keyBefore_length ((List.sorted_cons.mp hsort).1 k2 hmem2)

/-- C3: one hop of namespace resolution: a direct binding with exactly one
member resolves to that member's `(fs, path)`; a direct binding with more
than one member (a union) resolves to the namespace itself; and otherwise
the longest binding key that is a prefix-directory of the name resolves to
the FIRST member of its union, at `join(member.path, trim_prefix(n, key))`. -/
theorem C3_ns_resolve_step (i : Nat) (nc : Ctx) (b : NSData) (n : String)
    (hval : validPath n = true) :
    (∀ ref : BindTarget, b.lookup n = some [ref] →
      nsResolveFS i nc b n = (ref.1, ref.2.1)) ∧
    (∀ refs, b.lookup n = some refs → 1 < refs.length →
      nsResolveFS i nc b n = (FS.ns i nc b, n)) ∧
    (∀ k ks r0 rs, b.lookup n = none →
      MatchPaths (b.map Prod.fst) n = k :: ks →
      b.lookup k = some (r0 :: rs) →
      nsResolveFS i nc b n =
        (r0.1, pathJoin r0.2.1 (trimSlashes (trimPrefixOf n k))) ∧
      k ∈ b.map Prod.fst ∧ prefixDir k n = true ∧
      ∀ k2 ∈ b.map Prod.fst, prefixDir k2 n = true →
        k2.length ≤ k.length) := by
  refine ⟨?_, ?_, ?_⟩
  · intro ref hl
    simp [nsResolveFS, hl]
  · intro refs hl hlen
    rcases refs with _ | ⟨r1, _ | ⟨r2, rest⟩⟩
    · simp at hlen
    · simp at hlen
    · simp [nsResolveFS, hl]
  · intro k ks r0 rs hnone hmp hk
    have hmax := matchPaths_head_longest hmp
    refine ⟨?_, hmax.1, hmax.2.1, hmax.2.2⟩
    simp [nsResolveFS, hnone, hmp, nsFindBind, hk]

def c3Fi : FileInfo := ⟨"q", false⟩

def c3B : NSData := [("a", [(c7X, "p", c3Fi)]), ("a/b", [(c7Y, "q", c3Fi)])]

/-- Witness for C3: with bindings at `"a"` and `"a/b"`, the name
`"a/b/c"` descends through the longer key into its first member. -/
theorem C3_ns_resolve_step_witness :
    nsResolveFS 7 bgCtx c3B "a/b/c" = (c7Y, "q/c") := by
  have h := (C3_ns_resolve_step 7 bgCtx c3B "a/b/c" rfl).2.2 "a/b" ["a"]
    (c7Y, "q", c3Fi) [] rfl rfl rfl
  exact h.1

/-- Counterexample for C7 as stated: with keys `"a"` and `"a/b"` both
matching `"a/b/c"`, open delegates to the earlier (shorter) key `"a"`
with name `"b/c"`, not to the longest key `"a/b"` with name `"c"`. -/
theorem C7_counterexample :
    (mapOpenCtx 2 bgCtx 1 [("a", c7X), ("a/b", c7Y)] "a/b/c").1 =
      .ok (.file ⟨"X", false⟩ 21 "b/c") ∧
    (openCtxFS 1 bgCtx c7Y (trimPrefixOf "a/b/c" ("a/b" ++ "/"))).1 =
      .ok (.file ⟨"Y", false⟩ 22 "c") ∧
    (.ok (.file ⟨"X", false⟩ 21 "b/c") : Except Err File) ≠
      .ok (.file ⟨"Y", false⟩ 22 "c") := by
  refine ⟨rfl, rfl, ?_⟩
  intro h
  injection h with h2
  injection h2 with hinfo hid hpath
  exact absurd hid (by decide)

theorem withLog_fst {β : Type} (l : List Evt) (x : Res β) :
    (withLog l x).1 = x.1 := rfl

/-- C5 (amended): during member iteration, the resolver pass of
`UnionFS.ResolveFS` and both passes of `UnionFS.CreateContext` swallow a
member's `NOT_EXIST` error (iteration continues with the later members)
and surface any other member error immediately, whatever the remaining
members are; the stat fallback pass of `UnionFS.ResolveFS`, however,
swallows EVERY member stat error regardless of its kind. -/
theorem C5_union_member_errors (fuel : Nat) (ctx : Ctx) (n : String)
    (m : FS) (rest acc : List FS) (e : Err) :
    (isResolveFS m = true → (resolveFS fuel ctx m n).1 = .error e →
      ((e = .notExist →
        (unionResolveLoop1 (fuel + 1) ctx n (m :: rest) acc).1 =
          (unionResolveLoop1 fuel ctx n rest acc).1) ∧
       (e ≠ .notExist →
        (unionResolveLoop1 (fuel + 1) ctx n (m :: rest) acc).1 =
          .error e))) ∧
    ((statCtxFS fuel ctx m n).1 = .error e →
      (unionResolveLoop2 (fuel + 1) ctx n (m :: rest)).1 =
        (unionResolveLoop2 fuel ctx n rest).1) ∧
    (isCreateFS m = true → (createFS fuel m n).1 = .error e →
      ((e = .notExist →
        (unionCreateLoop1 (fuel + 1) (m :: rest) n).1 =
          (unionCreateLoop1 fuel rest n).1) ∧
       (e ≠ .notExist →
        (unionCreateLoop1 (fuel + 1) (m :: rest) n).1 = .error e))) ∧
    ((openCtxFS fuel ctx m n).1 = .error e →
      ((e = .notExist →
        (unionCreateLoop2 (fuel + 1) ctx (m :: rest) n).1 =
          (unionCreateLoop2 fuel ctx rest n).1) ∧
       (e ≠ .notExist →
        (unionCreateLoop2 (fuel + 1) ctx (m :: rest) n).1 = .error e))) := by
  refine ⟨?_, ?_, ?_, ?_⟩
  · intro hres herr
    rcases hp : resolveFS fuel ctx m n with ⟨r, l⟩
    rw [hp] at herr
    simp only at herr
    subst herr
    constructor
    · intro he
      subst he
      simp [unionResolveLoop1, hres, hp, withLog_fst]
    · intro he
      simp [unionResolveLoop1, hres, hp, he]
  · intro herr
    rcases hp : statCtxFS fuel ctx m n with ⟨r, l⟩
    rw [hp] at herr
    simp only at herr
    subst herr
    simp [unionResolveLoop2, hp, withLog_fst]
  · intro hcr herr
    rcases hp : createFS fuel m n with ⟨r, l⟩
    rw [hp] at herr
    simp only at herr
    subst herr
    constructor
    · intro he
      subst he
      simp [unionCreateLoop1, hcr, hp, withLog_fst]
    · intro he
      simp [unionCreateLoop1, hcr, hp, he]
  · intro herr
    rcases hp : openCtxFS fuel ctx m n with ⟨r, l⟩
    rw [hp] at herr
    simp only at herr
    subst herr
    constructor
    · intro he
      subst he
      simp [unionCreateLoop2, hp, withLog_fst]
    · intro he
      simp [unionCreateLoop2, hp, he]

/-- A resolver member whose resolve step fails with `PERMISSION`. -/
def c5M0 : FS := FS.prim 53 failOpen none none (some fun _ _ => .error .permission)

/-- A non-resolver member whose stat fails with `PERMISSION`. -/
def c5M1 : FS := FS.prim 51 failOpen none (some fun _ _ => .error .permission) none

/-- A non-resolver member whose stat succeeds. -/
def c5M2 : FS := FS.prim 52 failOpen none (some fun _ _ => .ok ⟨"f", false⟩) none

/-- Witness for C5: a member resolver error other than `NOT_EXIST`
(here `PERMISSION`) is surfaced immediately by the resolver pass. -/
theorem C5_union_member_errors_witness :
    (unionResolveLoop1 3 bgCtx "f" [c5M0, c5M2] []).1 =
      .error .permission :=
  ((C5_union_member_errors 2 bgCtx "f" c5M0 [c5M2] [] .permission).1
    rfl rfl).2 (by decide)

/-- Counterexample for C5 as stated: in the stat fallback pass, member
`c5M1` returns a `PERMISSION` error — not `NOT_EXIST` — yet it is
swallowed, iteration continues, and the union resolves to the later
member instead of surfacing the error. -/
theorem C5_counterexample :
    (statCtxFS 1 ⟨true⟩ c5M1 "f").1 = .error .permission ∧
    (unionResolveFS 4 ⟨true⟩ 50 [c5M1, c5M2] "f").1 = .ok (c5M2, "f") :=
  ⟨rfl, rfl⟩

/-! ### Lemmas about the `Resolve` loop -/

/-- One unfolding of the `Resolve` loop, phrased through the abstract
driver step. -/
theorem resolveGo_fst (g k : Nat) (ctx : Ctx) (n0 nm : String) (cur : FS) :
    (ResolveGo (g + 1) ctx n0 (k + 1) cur nm).1 =
      (match driverStep g ctx (cur, nm) with
       | .stop p => .ok p
       | .fail e => .error e
       | .next q => (ResolveGo g ctx n0 k q.1 q.2).1) := by
  by_cases h : isResolveFS cur = true
  · rcases hp : resolveFS g ctx cur nm with ⟨r, l⟩
    rcases r with e | ⟨q1, q2⟩
    · simp [ResolveGo, driverStep, h, hp]
    · by_cases hq : (Equal q1 cur && q2 == nm) = true
      · simp [ResolveGo, driverStep, h, hp, hq]
      · simp [ResolveGo, driverStep, h, hp, hq, withLog_fst]
  · have h2 : isResolveFS cur = false := by
      cases h3 : isResolveFS cur
      · rfl
      · exact absurd h3 h
    simp [ResolveGo, driverStep, h2]

/-- After `i` abstract `next` hops from the start pair, the loop's value
is the loop's value at the reached pair with the hop budget reduced by
`i` (and the fuel by `i`, one per hop). -/
theorem resolveGo_after_steps {ctx : Ctx} {f i g : Nat}
    {p q : FS × String} (hs : Steps ctx f p i g q) :
    ∀ k n0, i ≤ k →
      (ResolveGo f ctx n0 k p.1 p.2).1 =
        (ResolveGo g ctx n0 (k - i) q.1 q.2).1 := by
  induction hs with
  | refl f p => intro k n0 _; simp
  | @cons f i g p q r hstep hrest ih =>
    intro k n0 hk
    obtain ⟨p1, p2⟩ := p
    rcases k with _ | k2
    · omega
    · have h1 := resolveGo_fst f k2 ctx n0 p2 p1
      rw [h1, hstep]
      simpa [Nat.succ_sub_succ] using ih k2 n0 (by omega)

/-- Reaching a pair where the driver stops, within the hop budget, makes
`Resolve` return that pair. -/
theorem resolve_reaches_stop {ctx : Ctx} {fuel i g : Nat}
    {p : FS × String} {fs0 : FS} {n0 : String}
    (hs : Steps ctx fuel (fs0, n0) i (g + 1) p) (hi : i < 100)
    (hstop : driverStep g ctx p = .stop p) :
    (Resolve fuel ctx fs0 n0).1 = .ok p := by
  obtain ⟨p1, p2⟩ := p
  have h := resolveGo_after_steps hs 100 n0 (by omega)
  obtain ⟨k2, hk2⟩ : ∃ k2, 100 - i = k2 + 1 := ⟨99 - i, by omega⟩
  rw [Resolve, h, hk2, resolveGo_fst, hstop]

/-- Reaching a pair where the resolve step errors, within the hop budget,
makes `Resolve` propagate that error. -/
theorem resolve_reaches_fail {ctx : Ctx} {fuel i g : Nat}
    {p : FS × String} {e : Err} {fs0 : FS} {n0 : String}
    (hs : Steps ctx fuel (fs0, n0) i (g + 1) p) (hi : i < 100)
    (hfail : driverStep g ctx p = .fail e) :
    (Resolve fuel ctx fs0 n0).1 = .error e := by
  obtain ⟨p1, p2⟩ := p
  have h := resolveGo_after_steps hs 100 n0 (by omega)
  obtain ⟨k2, hk2⟩ : ∃ k2, 100 - i = k2 + 1 := ⟨99 - i, by omega⟩
  rw [Resolve, h, hk2, resolveGo_fst, hfail]

/-- Taking 100 `next` hops exhausts the budget: `Resolve` fails with the
depth error. -/
theorem resolve_depth_exceeded {ctx : Ctx} {fuel g : Nat}
    {p : FS × String} {fs0 : FS} {n0 : String}
    (hs : Steps ctx fuel (fs0, n0) 100 (g + 1) p) :
    (Resolve fuel ctx fs0 n0).1 = .error (.depthExceeded n0) := by
  have h := resolveGo_after_steps hs 100 n0 (le_refl 100)
  rw [Resolve, h]
  simp [ResolveGo]

theorem fsId_spinner (k : Nat) : fsId (spinner k) = 1000 + k := by
  cases k with
  | zero => rfl
  | succ k2 =>
    simp only [spinner, fsId]
    omega

theorem spinner_isResolve (k : Nat) : isResolveFS (spinner k) = true := by
  cases k <;> simp [spinner, isResolveFS]

/-- Every driver hop on the spinner chain moves to the next (fresh,
non-identity-equal) element with the name unchanged. -/
theorem driverStep_spinner (f k : Nat) (ctx : Ctx) (nm : String) :
    driverStep (f + 1) ctx (spinner (k + 1), nm) = .next (spinner k, nm) := by
  have hid : (fsId (spinner k) == fsId (spinner (k + 1))) = false := by
    rw [fsId_spinner, fsId_spinner, beq_eq_false_iff_ne]
    omega
  have hres : resolveFS (f + 1) ctx (spinner (k + 1)) nm =
      (.ok (spinner k, nm), []) := by
    simp [spinner, resolveFS]
  unfold driverStep
  rw [if_pos]
  · rw [hres]
    simp [Equal, hid]
  · exact spinner_isResolve (k + 1)

/-- The spinner chain takes `i` consecutive fresh hops whenever the fuel
covers them. -/
theorem spinner_steps (ctx : Ctx) (nm : String) :
    ∀ i j f, 1 ≤ f →
      Steps ctx (f + i) (spinner (i + j), nm) i f (spinner j, nm) := by
  intro i
  induction i with
  | zero =>
    intro j f _
    have h := @Steps.refl ctx f (spinner j, nm)
    simpa using h
  | succ i2 ih =>
    intro j f hf
    have hstep : driverStep (f + i2) ctx (spinner (i2 + 1 + j), nm) =
        .next (spinner (i2 + j), nm) := by
      obtain ⟨f3, hf3⟩ : ∃ f3, f + i2 = f3 + 1 := ⟨f + i2 - 1, by omega⟩
      rw [hf3, show i2 + 1 + j = (i2 + j) + 1 from by omega]
      exact driverStep_spinner f3 (i2 + j) ctx nm
    have h := Steps.cons hstep (ih j f hf)
    have heq : (f + i2) + 1 = f + (i2 + 1) := by omega
    rw [heq] at h
    exact h

def c1Bad : FS := FS.prim 50 failOpen none none (some fun _ _ => .error .permission)

/-- C1 (amended): `Resolve` returns the first pair reached within 100
driver hops at which it stops — the service does not implement the
Resolver capability, or its resolve step returns the identity-equal
service with the unchanged name; if a resolve step returns an error,
`Resolve` fails with that error instead; and when 100 hops pass with
neither a stop nor an error, it fails with the resolution-depth-exceeded
error. In particular, on a resolver chain whose every hop yields a fresh
non-identity-equal service, it returns the depth error after 100 hops. -/
theorem C1_resolve_fixpoint (fuel : Nat) (ctx : Ctx) (fs0 : FS) (n0 : String) :
    (∀ i g p, Steps ctx fuel (fs0, n0) i (g + 1) p → i < 100 →
      driverStep g ctx p = .stop p →
      (Resolve fuel ctx fs0 n0).1 = .ok p) ∧
    (∀ i g p e, Steps ctx fuel (fs0, n0) i (g + 1) p → i < 100 →
      driverStep g ctx p = .fail e →
      (Resolve fuel ctx fs0 n0).1 = .error e) ∧
    (∀ g p, Steps ctx fuel (fs0, n0) 100 (g + 1) p →
      (Resolve fuel ctx fs0 n0).1 = .error (.depthExceeded n0)) ∧
    (101 ≤ fuel →
      (Resolve fuel ctx (spinner 200) n0).1 = .error (.depthExceeded n0)) := by
  refine ⟨?_, ?_, ?_, ?_⟩
  · intro i g p hs hi hstop
    exact resolve_reaches_stop hs hi hstop
  · intro i g p e hs hi hfail
    exact resolve_reaches_fail hs hi hfail
  · intro g p hs
    exact resolve_depth_exceeded hs
  · intro hfuel
    obtain ⟨f, hf⟩ : ∃ f, fuel = f + 100 := ⟨fuel - 100, by omega⟩
    subst hf
    have hf1 : 1 ≤ f := by omega
    have hs := spinner_steps ctx n0 100 100 f hf1
    obtain ⟨f2, hf2⟩ : ∃ f2, f = f2 + 1 := ⟨f - 1, by omega⟩
    rw [hf2] at hs
    rw [hf2]
    exact resolve_depth_exceeded hs

/-- Witness for C1: a non-resolver leaf is its own immediate result (zero
hops, stop at the start pair). -/
theorem C1_resolve_fixpoint_witness :
    (Resolve 5 bgCtx c2Leaf "w").1 = .ok (c2Leaf, "w") :=
  (C1_resolve_fixpoint 5 bgCtx c2Leaf "w").1 0 4 (c2Leaf, "w")
    (Steps.refl 5 (c2Leaf, "w")) (by omega) rfl

/-- Counterexample for C1 as stated: a resolver whose step errors with
`PERMISSION` makes `Resolve` fail with that error — it neither returns a
stop pair nor fails with the depth error, the only two outcomes the claim
allows. -/
theorem C1_counterexample :
    (Resolve 2 bgCtx c1Bad "x").1 = .error .permission ∧
    Err.permission ≠ Err.depthExceeded "x" :=
  ⟨rfl, by decide⟩

/-! ### Association-list lemmas for the binding table -/

theorem lookupNoneIff {α : Type} {b : List (String × α)} {k : String} :
    b.lookup k = none ↔ k ∉ b.map Prod.fst := by
  induction b with
  | nil => simp
  | cons kv rest ih =>
    rcases kv with ⟨k1, v1⟩
    by_cases h : (k == k1) = true
    · have hk : k = k1 := eq_of_beq h
      subst hk
      simp [List.lookup]
    · have hk : k ≠ k1 := by
        intro he
        subst he
        simp at h
      simp [List.lookup, h, ih, hk]

theorem lookupMem {α : Type} {b : List (String × α)} {k : String} {v : α}
    (h : b.lookup k = some v) : (k, v) ∈ b := by
  induction b with
  | nil => simp at h
  | cons kv rest ih =>
    rcases kv with ⟨k1, v1⟩
    by_cases h1 : (k == k1) = true
    · have hk : k = k1 := eq_of_beq h1
      subst hk
      simp [List.lookup] at h
      subst h
      exact List.mem_cons_self _ _
    · simp [List.lookup, h1] at h
      exact List.mem_cons_of_mem _ (ih h)

theorem lookupAppend {α : Type} (b c : List (String × α)) (k : String)
    (h : b.lookup k = none) : (b ++ c).lookup k = c.lookup k := by
  induction b with
  | nil => simp
  | cons kv rest ih =>
    rcases kv with ⟨k1, v1⟩
    by_cases hk : (k == k1) = true
    · simp [List.lookup, hk] at h
    · simp only [List.lookup, hk] at h
      simp only [List.cons_append, List.lookup, hk]
      exact ih h

theorem lookupMapReplace {α : Type} (b : List (String × α)) (k : String)
    (v : α) (h : (b.lookup k).isSome = true) :
    (b.map (fun kv => if kv.1 == k then (k, v) else kv)).lookup k = some v := by
  induction b with
  | nil => simp [List.lookup] at h
  | cons kv rest ih =>
    rcases kv with ⟨k1, v1⟩
    rw [List.map_cons]
    by_cases h1 : (k1 == k) = true
    · have hk : k1 = k := eq_of_beq h1
      subst hk
      rw [if_pos h1]
      simp [List.lookup]
    · have h2 : (k == k1) = false := by
        rw [beq_eq_false_iff_ne]
        intro he
        subst he
        simp at h1
      rw [if_neg h1]
      simp only [List.lookup, h2] at h ⊢
      exact ih h

theorem lookupSetAssocSelf {α : Type} (b : List (String × α)) (k : String)
    (v : α) : (setAssoc b k v).lookup k = some v := by
  unfold setAssoc
  by_cases hp : (b.lookup k).isSome = true
  · simp only [hp, if_true]
    exact lookupMapReplace b k v hp
  · have hn : b.lookup k = none := by
      cases h2 : b.lookup k
      · rfl
      · exact absurd (by simp [h2]) hp
    simp only [hp, if_false, Bool.false_eq_true]
    rw [lookupAppend b _ k hn]
    simp [List.lookup]

theorem mapReplaceAbsent {α : Type} (b : List (String × α)) (k : String)
    (v : α) (h : k ∉ b.map Prod.fst) :
    b.map (fun kv => if kv.1 == k then (k, v) else kv) = b := by
  conv_rhs => rw [← List.map_id b]
  apply List.map_congr_left
  intro kv hkv
  have hne : kv.1 ≠ k := by
    intro he
    exact h (he ▸ List.mem_map_of_mem Prod.fst hkv)
  have hb : (kv.1 == k) = false := by
    rw [beq_eq_false_iff_ne]
    exact hne
  simp [hb]

theorem mapReplaceCancel {α : Type} {b : List (String × α)} {k : String}
    {w : α} (hnd : (b.map Prod.fst).Nodup) (h : b.lookup k = some w) :
    b.map (fun kv => if kv.1 == k then (k, w) else kv) = b := by
  induction b with
  | nil => simp at h
  | cons kv rest ih =>
    rcases kv with ⟨k1, v1⟩
    rw [List.map_cons] at hnd ⊢
    by_cases h1 : (k1 == k) = true
    · have hk : k1 = k := eq_of_beq h1
      subst hk
      simp only [List.lookup, beq_self_eq_true] at h
      have hw : v1 = w := by simpa using h
      subst hw
      have hknot := (List.nodup_cons.mp hnd).1
      rw [if_pos h1, mapReplaceAbsent rest k1 v1 hknot]
    · have h2 : (k == k1) = false := by
        rw [beq_eq_false_iff_ne]
        intro he
        subst he
        simp at h1
      simp only [List.lookup, h2] at h
      have hnd2 := (List.nodup_cons.mp hnd).2
      rw [if_neg h1, ih hnd2 h]

theorem setAssocCancel {α : Type} {b : List (String × α)} {k : String}
    {w : α} (hnd : (b.map Prod.fst).Nodup) (h : b.lookup k = some w) :
    setAssoc b k w = b := by
  unfold setAssoc
  rw [h]
  simp only [Option.isSome_some, if_true]
  exact mapReplaceCancel hnd h

theorem setAssocTwice {α : Type} (b : List (String × α)) (k : String)
    (v1 v2 : α) : setAssoc (setAssoc b k v1) k v2 = setAssoc b k v2 := by
  by_cases hp : (b.lookup k).isSome = true
  · have h1 : setAssoc b k v1 =
        b.map (fun kv => if kv.1 == k then (k, v1) else kv) := by
      simp [setAssoc, hp]
    have h2 : setAssoc b k v2 =
        b.map (fun kv => if kv.1 == k then (k, v2) else kv) := by
      simp [setAssoc, hp]
    have hp1 : ((setAssoc b k v1).lookup k).isSome = true := by
      rw [lookupSetAssocSelf]; rfl
    rw [h1] at hp1 ⊢
    rw [h2]
    simp only [setAssoc, hp1, if_true]
    rw [List.map_map]
    apply List.map_congr_left
    intro kv _
    by_cases hk : (kv.1 == k) = true
    · simp [Function.comp, hk]
    · simp [Function.comp, hk]
  · have hn : b.lookup k = none := by
      cases h2 : b.lookup k
      · rfl
      · exact absurd (by simp [h2]) hp
    have h1 : setAssoc b k v1 = b ++ [(k, v1)] := by simp [setAssoc, hn]
    have h2 : setAssoc b k v2 = b ++ [(k, v2)] := by simp [setAssoc, hn]
    have hp1 : ((setAssoc b k v1).lookup k).isSome = true := by
      rw [lookupSetAssocSelf]; rfl
    rw [h1] at hp1 ⊢
    rw [h2]
    simp only [setAssoc, hp1, if_true]
    rw [List.map_append]
    have hleft : b.map (fun kv => if kv.1 == k then (k, v2) else kv) = b :=
      mapReplaceAbsent b k v2 (lookupNoneIff.mp hn)
    rw [hleft]
    simp

theorem eraseAssocAbsent {α : Type} {b : List (String × α)} {k : String}
    (h : b.lookup k = none) : eraseAssoc b k = b := by
  rw [eraseAssoc, List.filter_eq_self]
  intro kv hkv
  have : kv.1 ≠ k := by
    intro he
    exact (lookupNoneIff.mp h) (he ▸ List.mem_map_of_mem Prod.fst hkv)
  simp [this]

theorem eraseAssocAppend {α : Type} (b : List (String × α)) (k : String)
    (v : α) : eraseAssoc (b ++ [(k, v)]) k = eraseAssoc b k := by
  rw [eraseAssoc, eraseAssoc, List.filter_append]
  simp

theorem lookupEraseAssocSelf {α : Type} (b : List (String × α)) (k : String) :
    (eraseAssoc b k).lookup k = none := by
  rw [lookupNoneIff]
  intro hmem
  rw [List.mem_map] at hmem
  obtain ⟨kv, hkv, hfst⟩ := hmem
  rw [eraseAssoc, List.mem_filter] at hkv
  have := hkv.2
  rw [hfst] at this
  simp at this

/-- The unbind filter predicate holds exactly when the binding does NOT
match the resolved source by identity and path. -/
theorem unbPredIff (ref : BindTarget) (rfs : FS) (rn : String) :
    ((!(Equal ref.1 rfs && ref.2.1 == rn)) = true) ↔
      ¬(Equal ref.1 rfs = true ∧ ref.2.1 = rn) := by
  constructor
  · intro h hc
    rcases hc with ⟨hc1, hc2⟩
    have hc3 : (ref.2.1 == rn) = true := by
      rw [hc2]
      exact beq_self_eq_true rn
    rw [hc1, hc3] at h
    simp at h
  · intro h
    by_cases h1 : Equal ref.1 rfs = true
    · by_cases h2 : (ref.2.1 == rn) = true
      · exact absurd ⟨h1, eq_of_beq h2⟩ h
      · have h2f : (ref.2.1 == rn) = false := by
          cases h3 : (ref.2.1 == rn)
          · rfl
          · exact absurd h3 h2
        simp [h2f]
    · have h1f : Equal ref.1 rfs = false := by
        cases h3 : Equal ref.1 rfs
        · rfl
        · exact absurd h3 h1
      simp [h1f]

/-- C8 (amended): when the destination holds no binding already matching
the resolved source, `bind(F, s, d, after)` followed by `unbind(F, s, d)`
restores the binding table exactly; and, unconditionally, unbind removes
from the destination precisely the bindings whose resolved `(fs, path)`
equals the resolved source by identity, deleting the key when every
binding matched. -/
theorem C8_bind_unbind (fuel : Nat) (nsctx : Ctx) (b : NSData) (src : FS)
    (sp d : String) (rfs : FS) (rn : String) (b2 : NSData)
    (hwfk : (b.map Prod.fst).Nodup) (hwfe : ∀ kv ∈ b, kv.2 ≠ [])
    (hres : (Resolve fuel nsctx src sp).1 = .ok (rfs, rn))
    (hnom : ∀ ref ∈ lookupD b d, ¬(Equal ref.1 rfs = true ∧ ref.2.1 = rn))
    (hb : (nsBind fuel nsctx b src sp d "after").1 = .ok b2) :
    (nsUnbind fuel nsctx b2 src sp d).1 = .ok b ∧
    (∀ c : NSData, ∃ c2,
      (nsUnbind fuel nsctx c src sp d).1 = .ok c2 ∧
      (∀ ref, ref ∈ lookupD c2 d ↔
        ref ∈ lookupD c d ∧ ¬(Equal ref.1 rfs = true ∧ ref.2.1 = rn)) ∧
      ((∀ ref ∈ lookupD c d, Equal ref.1 rfs = true ∧ ref.2.1 = rn) →
        c2.lookup d = none)) := by
  unfold nsBind at hb
  cases hvs : validPath sp with
  | false => rw [hvs] at hb; simp at hb
  | true =>
  cases hvd : validPath d with
  | false => rw [hvs, hvd] at hb; simp at hb
  | true =>
  rw [hvs, hvd] at hb
  simp only [if_true] at hb
  rcases hR : Resolve fuel nsctx src sp with ⟨r0, l0⟩
  have hr0 : r0 = .ok (rfs, rn) := by
    rw [hR] at hres
    exact hres
  subst hr0
  simp only [hR] at hb
  rcases hO : openFS fuel rfs rn with ⟨ro, lo⟩
  rcases ro with e | file
  · simp only [hO] at hb
    simp at hb
  · simp only [hO] at hb
    simp only [show (("after" == "") || ("after" == "after")) = true from rfl,
      if_true] at hb
    have hb2 : setAssoc b d ((rfs, rn, file.stat) :: lookupD b d) = b2 := by
      simpa using hb
    subst hb2
    have hpredTail : ∀ ref ∈ lookupD b d,
        (!(Equal ref.1 rfs && ref.2.1 == rn)) = true :=
      fun ref href => (unbPredIff ref rfs rn).mpr (hnom ref href)
    have hFilterTail : (lookupD b d).filter
        (fun ref => !(Equal ref.1 rfs && ref.2.1 == rn)) = lookupD b d :=
      List.filter_eq_self.mpr hpredTail
    have hHead : (!(Equal (rfs, rn, file.stat).1 rfs &&
        ((rfs, rn, file.stat).2.1 == rn))) = false := by
      simp [Equal]
    constructor
    · unfold nsUnbind
      rw [hvs, hvd]
      simp only [if_true]
      rw [hR]
      simp only
      have hLook : lookupD (setAssoc b d ((rfs, rn, file.stat) :: lookupD b d)) d =
          (rfs, rn, file.stat) :: lookupD b d := by
        unfold lookupD
        rw [lookupSetAssocSelf]
        rfl
      rw [hLook, List.filter_cons, hHead]
      simp only [Bool.false_eq_true, if_false]
      rw [hFilterTail]
      cases hbd : b.lookup d with
      | none =>
        have hempty : lookupD b d = [] := by
          unfold lookupD
          rw [hbd]
          rfl
        rw [hempty]
        simp only [List.isEmpty_nil, if_true]
        have habs : b.lookup d = none := hbd
        rw [show setAssoc b d [(rfs, rn, file.stat)] = b ++ [(d, [(rfs, rn, file.stat)])] from by
          simp [setAssoc, habs]]
        rw [eraseAssocAppend, eraseAssocAbsent habs]
      | some w =>
        have hw : lookupD b d = w := by
          unfold lookupD
          rw [hbd]
          rfl
        have hwne : w ≠ [] := hwfe (d, w) (lookupMem hbd)
        have hwE : (lookupD b d).isEmpty = false := by
          rw [hw]
          cases w with
          | nil => exact absurd rfl hwne
          | cons a as => rfl
        rw [hwE]
        simp only [Bool.false_eq_true, if_false]
        rw [setAssocTwice, hw, setAssocCancel hwfk hbd]
    · intro c
      by_cases hc : ((lookupD c d).filter
          (fun ref => !(Equal ref.1 rfs && ref.2.1 == rn))).isEmpty = true
      · refine ⟨eraseAssoc c d, ?_, ?_, ?_⟩
        · unfold nsUnbind
          rw [hvs, hvd]
          simp only [if_true]
          rw [hR]
          simp only [hc, if_true]
        · intro ref
          constructor
          · intro hmem
            exfalso
            have hnone : (eraseAssoc c d).lookup d = none :=
              lookupEraseAssocSelf c d
            unfold lookupD at hmem
            rw [hnone] at hmem
            simp at hmem
          · rintro ⟨hmem, hpred⟩
            exfalso
            have hin : ref ∈ (lookupD c d).filter
                (fun r2 => !(Equal r2.1 rfs && r2.2.1 == rn)) :=
              List.mem_filter.mpr ⟨hmem, (unbPredIff ref rfs rn).mpr hpred⟩
            rw [List.isEmpty_iff] at hc
            rw [hc] at hin
            simp at hin
        · intro _
          exact lookupEraseAssocSelf c d
      · refine ⟨setAssoc c d ((lookupD c d).filter
          (fun ref => !(Equal ref.1 rfs && ref.2.1 == rn))), ?_, ?_, ?_⟩
        · unfold nsUnbind
          rw [hvs, hvd]
          simp only [if_true]
          rw [hR]
          simp only at hc ⊢
          rw [if_neg hc]
        · intro ref
          unfold lookupD
          rw [lookupSetAssocSelf]
          simp only [Option.getD_some]
          rw [List.mem_filter]
          constructor
          · rintro ⟨hmem, hpred⟩
            exact ⟨hmem, (unbPredIff ref rfs rn).mp hpred⟩
          · rintro ⟨hmem, hpred⟩
            exact ⟨hmem, (unbPredIff ref rfs rn).mpr hpred⟩
        · intro hall
          exfalso
          apply hc
          rw [List.isEmpty_iff]
          apply List.filter_eq_nil_iff.mpr
          intro ref href
          have hm := hall ref href
          intro hpred
          exact (unbPredIff ref rfs rn).mp hpred hm

def c8Fi : FileInfo := ⟨"x", false⟩

/-- Witness for C8: binding a fresh leaf into an empty table and
unbinding it restores the empty table. -/
theorem C8_bind_unbind_witness :
    (nsUnbind 1 bgCtx [("d", [(c2Leaf, "x", c8Fi)])] c2Leaf "x" "d").1 =
      .ok ([] : NSData) :=
  (C8_bind_unbind 1 bgCtx [] c2Leaf "x" "d" c2Leaf "x"
    [("d", [(c2Leaf, "x", c8Fi)])] (by simp) (by simp) rfl
    (by intro ref href; simp [lookupD] at href) rfl).1

def c8B : NSData := [("d", [(c2Leaf, "x", c8Fi)])]

/-- Counterexample for C8 as stated: when the destination already holds a
binding resolving to the same source, bind-then-unbind does NOT restore
the table — unbind removes the pre-existing matching binding too and
deletes the key, so the key set itself changes. -/
theorem C8_counterexample :
    (nsBind 1 bgCtx c8B c2Leaf "x" "d" "after").1 =
      .ok [("d", [(c2Leaf, "x", c8Fi), (c2Leaf, "x", c8Fi)])] ∧
    (nsUnbind 1 bgCtx [("d", [(c2Leaf, "x", c8Fi), (c2Leaf, "x", c8Fi)])]
      c2Leaf "x" "d").1 = .ok ([] : NSData) ∧
    (c8B.lookup "d").isSome = true ∧
    (([] : NSData).lookup "d").isSome = false :=
  ⟨rfl, rfl, rfl, rfl⟩

/-- C9: `Clone` yields a namespace whose binding table equals the
original's at clone time (the lists are element-wise copies whose elements
still reference the very same service values), allocated as a fresh
object; afterwards a `Bind` or `Unbind` applied to either of the two
namespaces leaves the other's table unchanged. -/
theorem C9_clone_isolation (w : World) (i : Nat) (nsv : NSVal) (ctx2 : Ctx)
    (h : w[i]? = some nsv) :
    worldClone w i ctx2 = (w ++ [cloneNS nsv ctx2], w.length) ∧
    (cloneNS nsv ctx2).bindings = nsv.bindings ∧
    w.length ≠ i ∧
    (∀ fuel src sp dp mode,
      (worldBind fuel (w ++ [cloneNS nsv ctx2]) w.length src sp dp mode)[i]? =
        some nsv ∧
      (worldBind fuel (w ++ [cloneNS nsv ctx2]) i src sp dp mode)[w.length]? =
        some (cloneNS nsv ctx2)) ∧
    (∀ fuel src sp dp,
      (worldUnbind fuel (w ++ [cloneNS nsv ctx2]) w.length src sp dp)[i]? =
        some nsv ∧
      (worldUnbind fuel (w ++ [cloneNS nsv ctx2]) i src sp dp)[w.length]? =
        some (cloneNS nsv ctx2)) := by
  have hi : i < w.length := by
    rcases List.getElem?_eq_some.mp h with ⟨hlt, _⟩
    exact hlt
  have hfreshGet : (w ++ [cloneNS nsv ctx2])[w.length]? =
      some (cloneNS nsv ctx2) :=
    List.getElem?_concat_length w _
  have hiGet : (w ++ [cloneNS nsv ctx2])[i]? = some nsv := by
    rw [List.getElem?_append_left hi]
    exact h
  refine ⟨?_, ?_, ?_, ?_, ?_⟩
  · simp [worldClone, h]
  · simp [cloneNS]
  · omega
  · intro fuel src sp dp mode
    constructor
    · simp only [worldBind, hfreshGet]
      cases (nsBind fuel (cloneNS nsv ctx2).nctx (cloneNS nsv ctx2).bindings
          src sp dp mode).1 with
      | ok b2 =>
        rw [List.getElem?_set_ne (by omega)]
        exact hiGet
      | error e => exact hiGet
    · simp only [worldBind, hiGet]
      cases (nsBind fuel nsv.nctx nsv.bindings src sp dp mode).1 with
      | ok b2 =>
        rw [List.getElem?_set_ne (by omega)]
        exact hfreshGet
      | error e => exact hfreshGet
  · intro fuel src sp dp
    constructor
    · simp only [worldUnbind, hfreshGet]
      cases (nsUnbind fuel (cloneNS nsv ctx2).nctx (cloneNS nsv ctx2).bindings
          src sp dp).1 with
      | ok b2 =>
        rw [List.getElem?_set_ne (by omega)]
        exact hiGet
      | error e => exact hiGet
    · simp only [worldUnbind, hiGet]
      cases (nsUnbind fuel nsv.nctx nsv.bindings src sp dp).1 with
      | ok b2 =>
        rw [List.getElem?_set_ne (by omega)]
        exact hfreshGet
      | error e => exact hfreshGet

/-- Witness for C9 on a one-namespace world. -/
theorem C9_clone_isolation_witness :
    worldClone [(⟨bgCtx, c8B⟩ : NSVal)] 0 bgCtx =
      ([⟨bgCtx, c8B⟩, cloneNS ⟨bgCtx, c8B⟩ bgCtx], 1) ∧
    (cloneNS (⟨bgCtx, c8B⟩ : NSVal) bgCtx).bindings = c8B ∧
    (1 : Nat) ≠ 0 ∧
    (∀ fuel src sp dp mode,
      (worldBind fuel ([⟨bgCtx, c8B⟩] ++ [cloneNS ⟨bgCtx, c8B⟩ bgCtx]) 1
        src sp dp mode)[0]? = some ⟨bgCtx, c8B⟩ ∧
      (worldBind fuel ([⟨bgCtx, c8B⟩] ++ [cloneNS ⟨bgCtx, c8B⟩ bgCtx]) 0
        src sp dp mode)[1]? = some (cloneNS ⟨bgCtx, c8B⟩ bgCtx)) ∧
    (∀ fuel src sp dp,
      (worldUnbind fuel ([⟨bgCtx, c8B⟩] ++ [cloneNS ⟨bgCtx, c8B⟩ bgCtx]) 1
        src sp dp)[0]? = some ⟨bgCtx, c8B⟩ ∧
      (worldUnbind fuel ([⟨bgCtx, c8B⟩] ++ [cloneNS ⟨bgCtx, c8B⟩ bgCtx]) 0
        src sp dp)[1]? = some (cloneNS ⟨bgCtx, c8B⟩ bgCtx)) :=
  C9_clone_isolation [⟨bgCtx, c8B⟩] 0 ⟨bgCtx, c8B⟩ bgCtx rfl

/-! ### No Create invocation outside the create entry points

The open, stat, resolve and readdir operations (and the resolve driver)
never invoke any service's Create method: their invocation logs are empty
at every fuel. -/

def NoLogs (g : Nat) : Prop :=
  (∀ ctx fs n, (resolveFS g ctx fs n).2 = []) ∧
  (∀ ctx i es n, (mapResolveFS g ctx i es n).2 = []) ∧
  (∀ ctx i ms n, (unionResolveFS g ctx i ms n).2 = []) ∧
  (∀ ctx n ms acc, (unionResolveLoop1 g ctx n ms acc).2 = []) ∧
  (∀ ctx n ms, (unionResolveLoop2 g ctx n ms).2 = []) ∧
  (∀ ctx fs n, (statCtxFS g ctx fs n).2 = []) ∧
  (∀ ctx i es n, (mapStatCtx g ctx i es n).2 = []) ∧
  (∀ ctx fs n, (openCtxFS g ctx fs n).2 = []) ∧
  (∀ fs n, (openFS g fs n).2 = []) ∧
  (∀ ctx i es n, (mapOpenCtx g ctx i es n).2 = []) ∧
  (∀ ctx es acc, (mapOpenRootList g ctx es acc).2 = []) ∧
  (∀ ctx p2 es acc nd, (mapOpenSubList g ctx p2 es acc nd).2 = []) ∧
  (∀ ctx i ms n, (unionOpenCtx g ctx i ms n).2 = []) ∧
  (∀ ctx ms n acc, (unionReadDirAll g ctx ms n acc).2 = []) ∧
  (∀ ctx fs n, (readDirCtx g ctx fs n).2 = []) ∧
  (∀ ctx i nc b n, (nsOpenCtx g ctx i nc b n).2 = []) ∧
  (∀ ctx refs fd acc, (nsOpenDirectLoop g ctx refs fd acc).2 = []) ∧
  (∀ ctx n prs fd acc, (nsOpenSubLoop g ctx n prs fd acc).2 = []) ∧
  (∀ ctx prs acc, (nsOpenInfoLoop g ctx prs acc).2 = []) ∧
  (∀ ctx i nc b n, (nsStatCtx g ctx i nc b n).2 = []) ∧
  (∀ ctx refs bs, (nsStatDirectLoop g ctx refs bs).2 = []) ∧
  (∀ ctx self n, (nsStatTail g ctx self n).2 = []) ∧
  (∀ ctx self n, (nsStatFinal g ctx self n).2 = []) ∧
  (∀ ctx fs n, (resolveToStat g ctx fs n).2 = []) ∧
  (∀ ctx n0 k cur nm, (ResolveGo g ctx n0 k cur nm).2 = [])

theorem noLogs : ∀ g, NoLogs g := by
  intro g
  induction g with
  | zero =>
    unfold NoLogs
    repeat' constructor
    all_goals intros
    all_goals rfl
  | succ g ih =>
    obtain ⟨ih1, ih2, ih3, ih4, ih5, ih6, ih7, ih8, ih9, ih10, ih11, ih12,
      ih13, ih14, ih15, ih16, ih17, ih18, ih19, ih20, ih21, ih22, ih23,
      ih24, ih25⟩ := ih
    unfold NoLogs
    refine ⟨?_, ?_, ?_, ?_, ?_, ?_, ?_, ?_, ?_, ?_, ?_, ?_, ?_, ?_, ?_, ?_,
      ?_, ?_, ?_, ?_, ?_, ?_, ?_, ?_, ?_⟩
    -- resolveFS
    · intro ctx fs n
      rcases fs with ⟨i, o, c, s, r⟩ | ⟨i, es⟩ | ⟨i, ms⟩ | ⟨i, nc, b⟩
      · rcases r with _ | f <;> rfl
      · exact ih2 ctx i es n
      · exact ih3 ctx i ms n
      · rfl
    -- mapResolveFS
    · intro ctx i es n
      rcases hl : es.lookup n with _ | sub
      · rcases hm : MatchPaths (es.map Prod.fst) n with _ | ⟨key, ks⟩
        · simp [mapResolveFS, hl, hm]
        · rcases hl2 : es.lookup key with _ | sub2
          · simp [mapResolveFS, hl, hm, hl2]
          · by_cases hr : isResolveFS sub2 = true <;>
              simp [mapResolveFS, hl, hm, hl2, hr, ih1]
      · by_cases hr : isResolveFS sub = true <;>
          simp [mapResolveFS, hl, hr, ih1]
    -- unionResolveFS
    · intro ctx i ms n
      rcases ms with _ | ⟨m1, _ | ⟨m2, rest⟩⟩
      · rfl
      · rfl
      · by_cases hro : (n == "." && ctx.readOnly) = true
        · simp [unionResolveFS, hro]
        · rcases hp : unionResolveLoop1 g ctx n (m1 :: m2 :: rest) [] with ⟨r1, l1⟩
          have hl1 : l1 = [] := by
            have hx := ih4 ctx n (m1 :: m2 :: rest) []
            rw [hp] at hx
            exact hx
          subst hl1
          rcases r1 with e1 | v1
          · simp [unionResolveFS, hro, hp]
          · rcases v1 with res | toStat
            · simp [unionResolveFS, hro, hp]
            · rcases hp2 : unionResolveLoop2 g ctx n toStat with ⟨r2, l2⟩
              have hl2 : l2 = [] := by
                have hx := ih5 ctx n toStat
                rw [hp2] at hx
                exact hx
              subst hl2
              rcases r2 with e2 | v2
              · simp [unionResolveFS, hro, hp, hp2]
              · rcases v2 with _ | res2 <;> simp [unionResolveFS, hro, hp, hp2]
    -- unionResolveLoop1
    · intro ctx n ms acc
      rcases ms with _ | ⟨m, rest⟩
      · rfl
      · by_cases hr : isResolveFS m = true
        · rcases hp : resolveFS g ctx m n with ⟨r1, l1⟩
          have hl1 : l1 = [] := by
            have hx := ih1 ctx m n
            rw [hp] at hx
            exact hx
          subst hl1
          rcases r1 with e1 | ⟨rfs, rn⟩
          · by_cases he : e1 = Err.notExist <;>
              simp [unionResolveLoop1, hr, hp, he, withLog, ih4]
          · by_cases hc : (!ctx.readOnly && isCreateFS rfs) = true
            · simp [unionResolveLoop1, hr, hp, hc]
            · by_cases hm : (rn != n || !Equal rfs m) = true <;>
                simp [unionResolveLoop1, hr, hp, hc, hm, withLog, ih4]
        · simp [unionResolveLoop1, hr, ih4]
    -- unionResolveLoop2
    · intro ctx n ms
      rcases ms with _ | ⟨m, rest⟩
      · rfl
      · rcases hp : statCtxFS g ctx m n with ⟨r1, l1⟩
        have hl1 : l1 = [] := by
          have hx := ih6 ctx m n
          rw [hp] at hx
          exact hx
        subst hl1
        rcases r1 with e1 | fi
        · simp [unionResolveLoop2, hp, withLog, ih5]
        · by_cases hro : ctx.readOnly = true
          · simp [unionResolveLoop2, hp, hro]
          · by_cases hc : isCreateFS m = true <;>
              simp [unionResolveLoop2, hp, hro, hc, withLog, ih5]
    -- statCtxFS
    · intro ctx fs n
      rcases fs with ⟨i, o, c, s, r⟩ | ⟨i, es⟩ | ⟨i, ms⟩ | ⟨i, nc, b⟩
      · rcases s with _ | sf
        · rcases ho : o ctx n with e | f <;> simp [statCtxFS, ho]
        · rfl
      · exact ih7 ctx i es n
      · rcases hp : unionOpenCtx g ctx i ms n with ⟨r1, l1⟩
        have hl1 : l1 = [] := by
          have hx := ih13 ctx i ms n
          rw [hp] at hx
          exact hx
        subst hl1
        rcases r1 with e1 | f1 <;> simp [statCtxFS, hp]
      · exact ih20 ctx i nc b n
    -- mapStatCtx
    · intro ctx i es n
      by_cases hv : validPath n = true
      · by_cases hd : (n == ".") = true
        · simp [mapStatCtx, hv, hd]
        · rcases hl : es.lookup n with _ | sub
          · rcases hp : openCtxFS g ctx (FS.mapfs i es) n with ⟨r1, l1⟩
            have hl1 : l1 = [] := by
              have hx := ih8 ctx (FS.mapfs i es) n
              rw [hp] at hx
              exact hx
            subst hl1
            rcases r1 with e1 | f1 <;> simp [mapStatCtx, hv, hd, hl, hp]
          · simp [mapStatCtx, hv, hd, hl, ih6]
      · simp [mapStatCtx, hv]
    -- openCtxFS
    · intro ctx fs n
      rcases fs with ⟨i, o, c, s, r⟩ | ⟨i, es⟩ | ⟨i, ms⟩ | ⟨i, nc, b⟩
      · rfl
      · exact ih10 ctx i es n
      · exact ih13 ctx i ms n
      · exact ih16 ctx i nc b n
    -- openFS
    · intro fs n
      rcases fs with ⟨i, o, c, s, r⟩ | ⟨i, es⟩ | ⟨i, ms⟩ | ⟨i, nc, b⟩
      · rfl
      · exact ih10 bgCtx i es n
      · exact ih13 bgCtx i ms n
      · exact ih16 nc i nc b n
    -- mapOpenCtx
    · intro ctx i es n
      by_cases hv : validPath n = true
      · rcases hl : es.lookup n with _ | sub
        · rcases hf : findPrefixEntry es n with _ | ⟨p, sub2⟩
          · by_cases hd : (n == ".") = true
            · rcases hp : mapOpenRootList g ctx es [] with ⟨r1, l1⟩
              have hl1 : l1 = [] := by
                have hx := ih11 ctx es []
                rw [hp] at hx
                exact hx
              subst hl1
              rcases r1 with e1 | list0 <;> simp [mapOpenCtx, hv, hl, hf, hd, hp]
            · rcases hp : mapOpenSubList g ctx (n ++ "/") es [] [] with ⟨r1, l1⟩
              have hl1 : l1 = [] := by
                have hx := ih12 ctx (n ++ "/") es [] []
                rw [hp] at hx
                exact hx
              subst hl1
              rcases r1 with e1 | ⟨list0, need0⟩
              · simp [mapOpenCtx, hv, hl, hf, hd, hp]
              · by_cases hee : (list0.isEmpty && need0.isEmpty) = true <;>
                  simp [mapOpenCtx, hv, hl, hf, hd, hp, hee]
          · simp [mapOpenCtx, hv, hl, hf, ih8]
        · simp [mapOpenCtx, hv, hl, ih8]
      · simp [mapOpenCtx, hv]
    -- mapOpenRootList
    · intro ctx es acc
      rcases es with _ | ⟨⟨fname, sub⟩, rest⟩
      · rfl
      · by_cases h1 : (firstSeg fname).isNone = true
        · by_cases h2 : (fname != ".") = true
          · rcases hp : statCtxFS g ctx sub "." with ⟨r1, l1⟩
            have hl1 : l1 = [] := by
              have hx := ih6 ctx sub "."
              rw [hp] at hx
              exact hx
            subst hl1
            rcases r1 with e1 | fi <;>
              simp [mapOpenRootList, h1, h2, hp, withLog, ih11]
          · simp [mapOpenRootList, h1, h2, ih11]
        · simp [mapOpenRootList, h1, ih11]
    -- mapOpenSubList
    · intro ctx p2 es acc nd
      rcases es with _ | ⟨⟨fname, sub⟩, rest⟩
      · rfl
      · rcases hp : statCtxFS g ctx sub "." with ⟨r1, l1⟩
        have hl1 : l1 = [] := by
          have hx := ih6 ctx sub "."
          rw [hp] at hx
          exact hx
        subst hl1
        rcases r1 with e1 | fi
        · simp [mapOpenSubList, hp, withLog, ih12]
        · by_cases h1 : hasPre fname p2 = true
          · rcases hseg : firstSeg (trimPrefixOf fname p2) with _ | seg <;>
              simp [mapOpenSubList, hp, h1, hseg, withLog, ih12]
          · simp [mapOpenSubList, hp, h1, withLog, ih12]
    -- unionOpenCtx
    · intro ctx i ms n
      by_cases hv : validPath n = true
      · rcases hp : unionResolveFS g ctx i ms n with ⟨r1, l1⟩
        have hl1 : l1 = [] := by
          have hx := ih3 ctx i ms n
          rw [hp] at hx
          exact hx
        subst hl1
        rcases r1 with e1 | ⟨rfs, rn⟩
        · simp [unionOpenCtx, hv, hp]
        · by_cases hm : (rn != n || !Equal rfs (FS.unionfs i ms)) = true
          · simp [unionOpenCtx, hv, hp, hm, withLog, ih8]
          · by_cases hd : (n != ".") = true
            · simp [unionOpenCtx, hv, hp, hm, hd]
            · rcases hp2 : unionReadDirAll g ctx ms n [] with ⟨r2, l2⟩
              have hl2 : l2 = [] := by
                have hx := ih14 ctx ms n []
                rw [hp2] at hx
                exact hx
              subst hl2
              rcases r2 with e2 | es2 <;>
                simp [unionOpenCtx, hv, hp, hm, hd, hp2]
      · simp [unionOpenCtx, hv]
    -- unionReadDirAll
    · intro ctx ms n acc
      rcases ms with _ | ⟨m, rest⟩
      · rfl
      · rcases hp : readDirCtx g ctx m n with ⟨r1, l1⟩
        have hl1 : l1 = [] := by
          have hx := ih15 ctx m n
          rw [hp] at hx
          exact hx
        subst hl1
        rcases r1 with e1 | es1 <;>
          simp [unionReadDirAll, hp, withLog, ih14]
    -- readDirCtx
    · intro ctx fs n
      rcases hp : openCtxFS g ctx fs n with ⟨r1, l1⟩
      have hl1 : l1 = [] := by
        have hx := ih8 ctx fs n
        rw [hp] at hx
        exact hx
      subst hl1
      rcases r1 with e1 | f1
      · simp [readDirCtx, hp]
      · rcases f1 with ⟨info, sid, spn⟩ | ⟨info, ents⟩ <;> simp [readDirCtx, hp]
    -- nsOpenCtx
    · intro ctx i nc b n
      by_cases hv : validPath n = true
      · rcases hp : nsOpenDirectLoop g ctx (lookupD b n) false [] with ⟨r1, l1⟩
        have hl1 : l1 = [] := by
          have hx := ih17 ctx (lookupD b n) false []
          rw [hp] at hx
          exact hx
        subst hl1
        rcases r1 with e1 | v1
        · simp [nsOpenCtx, hv, hp]
        · rcases v1 with f1 | ⟨fd1, ents1⟩
          · simp [nsOpenCtx, hv, hp]
          · rcases hp2 : nsOpenSubLoop g ctx n (nsSubPairs b n) fd1 ents1 with ⟨r2, l2⟩
            have hl2 : l2 = [] := by
              have hx := ih18 ctx n (nsSubPairs b n) fd1 ents1
              rw [hp2] at hx
              exact hx
            subst hl2
            rcases r2 with e2 | v2
            · simp [nsOpenCtx, hv, hp, hp2]
            · rcases v2 with f2 | ⟨fd2, ents2⟩
              · simp [nsOpenCtx, hv, hp, hp2]
              · by_cases hd : (n == ".") = true
                · rcases hp3 : nsOpenInfoLoop g ctx (nsRootInfoPairs b) ents2 with ⟨r3, l3⟩
                  have hl3 : l3 = [] := by
                    have hx := ih19 ctx (nsRootInfoPairs b) ents2
                    rw [hp3] at hx
                    exact hx
                  subst hl3
                  rcases r3 with e3 | ents3 <;>
                    simp [nsOpenCtx, hv, hp, hp2, hd, hp3, apply_ite]
                · rcases hp3 : nsOpenInfoLoop g ctx (nsChildInfoPairs b n) ents2 with ⟨r3, l3⟩
                  have hl3 : l3 = [] := by
                    have hx := ih19 ctx (nsChildInfoPairs b n) ents2
                    rw [hp3] at hx
                    exact hx
                  subst hl3
                  rcases r3 with e3 | ents3 <;>
                    simp [nsOpenCtx, hv, hp, hp2, hd, hp3, apply_ite]
      · simp [nsOpenCtx, hv]
    -- nsOpenDirectLoop
    · intro ctx refs fd acc
      rcases refs with _ | ⟨ref, rest⟩
      · rfl
      · by_cases hdir : ref.2.2.isDir = true
        · rcases hp : readDirCtx g ctx ref.1 ref.2.1 with ⟨r1, l1⟩
          have hl1 : l1 = [] := by
            have hx := ih15 ctx ref.1 ref.2.1
            rw [hp] at hx
            exact hx
          subst hl1
          rcases r1 with e1 | es1 <;>
            simp [nsOpenDirectLoop, hdir, hp, withLog, ih17]
        · rcases hp : openCtxFS g ctx ref.1 ref.2.1 with ⟨r1, l1⟩
          have hl1 : l1 = [] := by
            have hx := ih8 ctx ref.1 ref.2.1
            rw [hp] at hx
            exact hx
          subst hl1
          rcases r1 with e1 | f1 <;>
            simp [nsOpenDirectLoop, hdir, hp, withLog, ih17]
    -- nsOpenSubLoop
    · intro ctx n prs fd acc
      rcases prs with _ | ⟨⟨bp, ref⟩, rest⟩
      · rfl
      · rcases hp : statCtxFS g ctx ref.1
          (pathJoin ref.2.1 (trimSlashes (trimPrefixOf n bp))) with ⟨r1, l1⟩
        have hl1 : l1 = [] := by
          have hx := ih6 ctx ref.1 (pathJoin ref.2.1 (trimSlashes (trimPrefixOf n bp)))
          rw [hp] at hx
          exact hx
        subst hl1
        rcases r1 with e1 | fi
        · simp [nsOpenSubLoop, hp, withLog, ih18]
        · by_cases hdir : fi.isDir = true
          · rcases hp2 : readDirCtx g ctx ref.1
              (pathJoin ref.2.1 (trimSlashes (trimPrefixOf n bp))) with ⟨r2, l2⟩
            have hl2 : l2 = [] := by
              have hx := ih15 ctx ref.1 (pathJoin ref.2.1 (trimSlashes (trimPrefixOf n bp)))
              rw [hp2] at hx
              exact hx
            subst hl2
            rcases r2 with e2 | es2 <;>
              simp [nsOpenSubLoop, hp, hdir, hp2, withLog, ih18]
          · rcases hp2 : openCtxFS g ctx ref.1
              (pathJoin ref.2.1 (trimSlashes (trimPrefixOf n bp))) with ⟨r2, l2⟩
            have hl2 : l2 = [] := by
              have hx := ih8 ctx ref.1 (pathJoin ref.2.1 (trimSlashes (trimPrefixOf n bp)))
              rw [hp2] at hx
              exact hx
            subst hl2
            rcases r2 with e2 | f2 <;>
              simp [nsOpenSubLoop, hp, hdir, hp2, withLog, ih18]
    -- nsOpenInfoLoop
    · intro ctx prs acc
      rcases prs with _ | ⟨⟨nm, ref⟩, rest⟩
      · rfl
      · rcases hp : statCtxFS g ctx ref.1 ref.2.1 with ⟨r1, l1⟩
        have hl1 : l1 = [] := by
          have hx := ih6 ctx ref.1 ref.2.1
          rw [hp] at hx
          exact hx
        subst hl1
        rcases r1 with e1 | fi <;>
          simp [nsOpenInfoLoop, hp, withLog, ih19]
    -- nsStatCtx
    · intro ctx i nc b n
      by_cases hv : validPath n = true
      · by_cases hd : (n == ".") = true
        · simp [nsStatCtx, hv, hd]
        · rcases hl : b.lookup n with _ | refs
          · simp [nsStatCtx, hv, hd, hl, ih22]
          · rcases hp : nsStatDirectLoop g ctx refs (pathBase n) with ⟨r1, l1⟩
            have hl1 : l1 = [] := by
              have hx := ih21 ctx refs (pathBase n)
              rw [hp] at hx
              exact hx
            subst hl1
            rcases r1 with e1 | v1
            · simp [nsStatCtx, hv, hd, hl, hp]
            · rcases v1 with _ | fi <;>
                simp [nsStatCtx, hv, hd, hl, hp, withLog, ih22]
      · simp [nsStatCtx, hv]
    -- nsStatDirectLoop
    · intro ctx refs bs
      rcases refs with _ | ⟨ref, rest⟩
      · rfl
      · rcases hp : statCtxFS g ctx ref.1 ref.2.1 with ⟨r1, l1⟩
        have hl1 : l1 = [] := by
          have hx := ih6 ctx ref.1 ref.2.1
          rw [hp] at hx
          exact hx
        subst hl1
        rcases r1 with e1 | fi <;>
          simp [nsStatDirectLoop, hp, withLog, ih21]
    -- nsStatTail
    · intro ctx self n
      rcases hp : resolveToStat g ctx self n with ⟨r1, l1⟩
      have hl1 : l1 = [] := by
        have hx := ih24 ctx self n
        rw [hp] at hx
        exact hx
      subst hl1
      rcases r1 with e1 | ⟨t, tn⟩
      · by_cases he : e1 = Err.notSupported <;>
          simp [nsStatTail, hp, he, withLog, ih23]
      · by_cases hEq : (!Equal t self) = true <;>
          simp [nsStatTail, hp, hEq, withLog, ih6, ih23]
    -- nsStatFinal
    · intro ctx self n
      rcases hp : ResolveGo g ctx n 100 self n with ⟨r1, l1⟩
      have hl1 : l1 = [] := by
        have hx := ih25 ctx n 100 self n
        rw [hp] at hx
        exact hx
      subst hl1
      rcases r1 with e1 | ⟨rfs, rn⟩
      · simp [nsStatFinal, hp]
      · rcases hp2 : openCtxFS g ctx rfs rn with ⟨r2, l2⟩
        have hl2 : l2 = [] := by
          have hx := ih8 ctx rfs rn
          rw [hp2] at hx
          exact hx
        subst hl2
        rcases r2 with e2 | f2 <;> simp [nsStatFinal, hp, hp2]
    -- resolveToStat
    · intro ctx fs n
      rcases hp : ResolveGo g ctx n 100 fs n with ⟨r1, l1⟩
      have hl1 : l1 = [] := by
        have hx := ih25 ctx n 100 fs n
        rw [hp] at hx
        exact hx
      subst hl1
      rcases r1 with e1 | ⟨rfs, rn⟩
      · simp [resolveToStat, hp]
      · by_cases hr : isResolveFS rfs = true
        · rcases hp2 : resolveFS g ctx rfs rn with ⟨r2, l2⟩
          have hl2 : l2 = [] := by
            have hx := ih1 ctx rfs rn
            rw [hp2] at hx
            exact hx
          subst hl2
          rcases r2 with e2 | ⟨rr, rn2⟩
          · by_cases hst : hasStatCtx rfs = true <;>
              simp [resolveToStat, hp, hr, hp2, hst]
          · by_cases hmv : (!Equal rr rfs || rn2 != rn) = true
            · by_cases hst : hasStatCtx rr = true <;>
                simp [resolveToStat, hp, hr, hp2, hmv, hst]
            · by_cases hst : hasStatCtx rfs = true <;>
                simp [resolveToStat, hp, hr, hp2, hmv, hst]
        · by_cases hst : hasStatCtx rfs = true <;>
            simp [resolveToStat, hp, hr, hst]
    -- ResolveGo
    · intro ctx n0 k cur nm
      rcases k with _ | k2
      · rfl
      · by_cases hr : isResolveFS cur = true
        · rcases hp : resolveFS g ctx cur nm with ⟨r1, l1⟩
          have hl1 : l1 = [] := by
            have hx := ih1 ctx cur nm
            rw [hp] at hx
            exact hx
          subst hl1
          rcases r1 with e1 | ⟨nf, nn⟩
          · simp [ResolveGo, hr, hp]
          · by_cases hfix : (Equal nf cur && nn == nm) = true <;>
              simp [ResolveGo, hr, hp, hfix, withLog, ih25]
        · simp [ResolveGo, hr]

theorem openCtxFS_noLog (g : Nat) (ctx : Ctx) (fs : FS) (n : String) :
    (openCtxFS g ctx fs n).2 = [] := by
  obtain ⟨-, -, -, -, -, -, -, h8, -⟩ := noLogs g
  exact h8 ctx fs n

theorem unionResolveFS_noLog (g : Nat) (ctx : Ctx) (i : Nat) (ms : List FS)
    (n : String) : (unionResolveFS g ctx i ms n).2 = [] := by
  obtain ⟨-, -, h3, -⟩ := noLogs g
  exact h3 ctx i ms n

theorem unionOpenCtx_noLog (g : Nat) (ctx : Ctx) (i : Nat) (ms : List FS)
    (n : String) : (unionOpenCtx g ctx i ms n).2 = [] := by
  obtain ⟨-, -, -, -, -, -, -, -, -, -, -, -, h13, -⟩ := noLogs g
  exact h13 ctx i ms n

/-- Whether an interface value is a leaf service rather than a composite. -/
def isPrim : FS → Bool
  | .prim _ _ _ _ _ => true
  | _ => false

/-- A bare `Create` call on a leaf service logs at most the single
invocation of that service's own Create method. -/
theorem createFS_prim_log (g : Nat) (m : FS) (n : String) (h : isPrim m = true) :
    ∀ e ∈ (createFS g m n).2, e = (fsId m, n) := by
  rcases m with ⟨i, o, c, s, r⟩ | ⟨i, es⟩ | ⟨i, ms⟩ | ⟨i, nc, b⟩
  · rcases g with _ | g
    · intro e he
      simp [createFS, gasR] at he
    · rcases c with _ | cf
      · intro e he
        simp [createFS] at he
      · intro e he
        simp [createFS] at he
        simp [fsId, he]
  all_goals simp [isPrim] at h

/-- Every Create invocation performed by the creator pass of
`UnionFS.CreateContext` over leaf members targets a Creator-advertising
member, with the requested name. -/
theorem unionCreateLoop1_log (n : String) :
    ∀ (g : Nat) (ms : List FS), (∀ m ∈ ms, isPrim m = true) →
      ∀ e ∈ (unionCreateLoop1 g ms n).2,
        ∃ m, m ∈ ms ∧ isCreateFS m = true ∧ e = (fsId m, n) := by
  intro g
  induction g with
  | zero =>
    intro ms _ e he
    simp [unionCreateLoop1, gasR] at he
  | succ g ih =>
    intro ms hprim e he
    rcases ms with _ | ⟨m, rest⟩
    · simp [unionCreateLoop1] at he
    · have hrest : ∀ m2 ∈ rest, isPrim m2 = true :=
        fun m2 hm2 => hprim m2 (List.mem_cons_of_mem m hm2)
      by_cases hcr : isCreateFS m = true
      · rcases hp : createFS g m n with ⟨r1, l1⟩
        have hl1 : ∀ e2 ∈ l1, e2 = (fsId m, n) := by
          intro e2 he2
          have hx := createFS_prim_log g m n (hprim m (List.mem_cons_self m rest)) e2
          rw [hp] at hx
          exact hx he2
        rcases r1 with e1 | f1
        · by_cases hne : e1 = Err.notExist
          · simp [unionCreateLoop1, hcr, hp, hne, withLog] at he
            rcases he with he | he
            · exact ⟨m, List.mem_cons_self m rest, hcr, hl1 e he⟩
            · obtain ⟨m2, hm2, h3, h4⟩ := ih rest hrest e he
              exact ⟨m2, List.mem_cons_of_mem m hm2, h3, h4⟩
          · simp [unionCreateLoop1, hcr, hp, hne] at he
            exact ⟨m, List.mem_cons_self m rest, hcr, hl1 e he⟩
        · simp [unionCreateLoop1, hcr, hp] at he
          exact ⟨m, List.mem_cons_self m rest, hcr, hl1 e he⟩
      · simp [unionCreateLoop1, hcr] at he
        obtain ⟨m2, hm2, h3, h4⟩ := ih rest hrest e he
        exact ⟨m2, List.mem_cons_of_mem m hm2, h3, h4⟩

/-- The open fallback pass of `UnionFS.CreateContext` performs no Create
invocation at all. -/
theorem unionCreateLoop2_noLog (ctx : Ctx) (n : String) :
    ∀ (g : Nat) (ms : List FS), (unionCreateLoop2 g ctx ms n).2 = [] := by
  intro g
  induction g with
  | zero => intro ms; rfl
  | succ g ih =>
    intro ms
    rcases ms with _ | ⟨m, rest⟩
    · rfl
    · rcases hp : openCtxFS g ctx m n with ⟨r1, l1⟩
      have hl1 : l1 = [] := by
        have hx := openCtxFS_noLog g ctx m n
        rw [hp] at hx
        exact hx
      subst hl1
      rcases r1 with e1 | f1
      · by_cases he : e1 = Err.notExist <;>
          simp [unionCreateLoop2, hp, he, withLog, ih]
      · simp [unionCreateLoop2, hp]

/-- The creator pass skips over members that advertise no Creator without
invoking anything on them. -/
theorem unionCreateLoop1_skip (n : String) :
    ∀ (pre : List FS), (∀ m ∈ pre, isCreateFS m = false) →
      ∀ (g : Nat) (tail : List FS),
        unionCreateLoop1 (pre.length + g) (pre ++ tail) n =
          unionCreateLoop1 g tail n := by
  intro pre
  induction pre with
  | nil =>
    intro _ g tail
    simp
  | cons m pre2 ih =>
    intro hpre g tail
    have hm : isCreateFS m = false := hpre m (List.mem_cons_self m pre2)
    have hlen : (m :: pre2).length + g = (pre2.length + g) + 1 := by
      rw [List.length_cons, Nat.add_right_comm]
    rw [hlen, List.cons_append]
    have hstep : unionCreateLoop1 ((pre2.length + g) + 1) (m :: (pre2 ++ tail)) n
        = unionCreateLoop1 (pre2.length + g) (pre2 ++ tail) n := by
      simp [unionCreateLoop1, hm]
    rw [hstep]
    exact ih (fun m2 hm2 => hpre m2 (List.mem_cons_of_mem m hm2)) g tail

/-- When the head member is a leaf advertising a Creator, the creator pass
logs that member's Create invocation first. -/
theorem unionCreateLoop1_creator_head (g i0 : Nat)
    (o : Ctx → String → Except Err File) (c0 : String → Except Err File)
    (s : Option (Ctx → String → Except Err FileInfo))
    (r : Option (Ctx → String → Except Err (FS × String)))
    (post : List FS) (n : String) :
    ∃ t, (unionCreateLoop1 (g + 2) (FS.prim i0 o (some c0) s r :: post) n).2 =
      (i0, n) :: t := by
  rcases hc : c0 n with e | f
  · by_cases he : e = Err.notExist
    · exact ⟨(unionCreateLoop1 (g + 1) post n).2,
        by simp [unionCreateLoop1, isCreateFS, createFS, hc, he, withLog]⟩
    · exact ⟨[], by simp [unionCreateLoop1, isCreateFS, createFS, hc, he]⟩
  · exact ⟨[], by simp [unionCreateLoop1, isCreateFS, createFS, hc]⟩

/-- A leaf member that advertises no Creator. -/
def c4A : FS := FS.prim 61 failOpen none none none

/-- A leaf member whose Creator accepts every name. -/
def c4C : FS :=
  FS.prim 41 failOpen (some fun nm => .ok (.file ⟨nm, false⟩ 41 nm)) none none

/-- C4: union write-preference, as the code implements it. For a `UnionFS`
of leaf members: (i) every Create invocation performed by
`UnionFS.CreateContext` — under any context — targets a Creator-advertising
member with the requested name; (ii) resolve and open on the union never
invoke any Create; (iii) when the members preceding a Creator-advertising
member `m0` advertise no Creator and the path is valid, `m0`'s Create is
the first one invoked by create. -/
theorem C4_union_create_dispatch (ctx : Ctx) (i : Nat) (ms : List FS)
    (n : String) (hprim : ∀ m ∈ ms, isPrim m = true) :
    (∀ fuel, ∀ e ∈ (unionCreateCtx fuel ctx i ms n).2,
      ∃ m, m ∈ ms ∧ isCreateFS m = true ∧ e = (fsId m, n)) ∧
    (∀ fuel, (unionResolveFS fuel ctx i ms n).2 = [] ∧
      (unionOpenCtx fuel ctx i ms n).2 = []) ∧
    (∀ pre m0 post g, ms = pre ++ m0 :: post →
      (∀ m ∈ pre, isCreateFS m = false) → isCreateFS m0 = true →
      validPath n = true →
      ∃ t, (unionCreateCtx (pre.length + g + 3) ctx i ms n).2 =
        (fsId m0, n) :: t) := by
  refine ⟨?_, ?_, ?_⟩
  · intro fuel e he
    rcases fuel with _ | g
    · simp [unionCreateCtx, gasR] at he
    · by_cases hv : validPath n = true
      · rcases hp : unionCreateLoop1 g ms n with ⟨r1, l1⟩
        have hl1 : ∀ e2 ∈ l1, ∃ m, m ∈ ms ∧ isCreateFS m = true ∧ e2 = (fsId m, n) := by
          intro e2 he2
          refine unionCreateLoop1_log n g ms hprim e2 ?_
          rw [hp]
          exact he2
        rcases r1 with e1 | v1
        · simp [unionCreateCtx, hv, hp] at he
          exact hl1 e he
        · rcases v1 with _ | f1
          · rcases hp2 : unionCreateLoop2 g ctx ms n with ⟨r2, l2⟩
            have hl2 : l2 = [] := by
              have hx := unionCreateLoop2_noLog ctx n g ms
              rw [hp2] at hx
              exact hx
            subst hl2
            rcases r2 with e2 | v2
            · simp [unionCreateCtx, hv, hp, hp2] at he
              exact hl1 e he
            · rcases v2 with _ | f2 <;>
                · simp [unionCreateCtx, hv, hp, hp2] at he
                  exact hl1 e he
          · simp [unionCreateCtx, hv, hp] at he
            exact hl1 e he
      · simp [unionCreateCtx, hv] at he
  · intro fuel
    exact ⟨unionResolveFS_noLog fuel ctx i ms n, unionOpenCtx_noLog fuel ctx i ms n⟩
  · intro pre m0 post g hms hpre hcr hv
    subst hms
    have hm0 : isPrim m0 = true :=
      hprim m0 (List.mem_append_right pre (List.mem_cons_self m0 post))
    rcases m0 with ⟨i0, o, c, s, r⟩ | ⟨i0, es⟩ | ⟨i0, ms2⟩ | ⟨i0, nc, b⟩
    · rcases c with _ | c0
      · simp [isCreateFS] at hcr
      · obtain ⟨t, ht⟩ := unionCreateLoop1_creator_head g i0 o c0 s r post n
        have hskip := unionCreateLoop1_skip n pre hpre (g + 2)
          (FS.prim i0 o (some c0) s r :: post)
        have hfu : pre.length + g + 3 = (pre.length + (g + 2)) + 1 := by omega
        rw [hfu]
        rcases hp : unionCreateLoop1 (g + 2) (FS.prim i0 o (some c0) s r :: post) n
          with ⟨r1, l1⟩
        have hl1 : l1 = (i0, n) :: t := by
          rw [hp] at ht
          exact ht
        subst hl1
        rcases r1 with e1 | v1
        · exact ⟨t, by simp [unionCreateCtx, hv, hskip, hp, fsId]⟩
        · rcases v1 with _ | f1
          · rcases hp2 : unionCreateLoop2 (pre.length + (g + 2))
              ctx (pre ++ FS.prim i0 o (some c0) s r :: post) n with ⟨r2, l2⟩
            have hl2 : l2 = [] := by
              have hx := unionCreateLoop2_noLog ctx n (pre.length + (g + 2))
                (pre ++ FS.prim i0 o (some c0) s r :: post)
              rw [hp2] at hx
              exact hx
            subst hl2
            rcases r2 with e2 | v2
            · exact ⟨t, by simp [unionCreateCtx, hv, hskip, hp, hp2, fsId]⟩
            · rcases v2 with _ | f2 <;>
                exact ⟨t, by simp [unionCreateCtx, hv, hskip, hp, hp2, fsId]⟩
          · exact ⟨t, by simp [unionCreateCtx, hv, hskip, hp, fsId]⟩
    all_goals simp [isPrim] at hm0

/-- C4 witness: a union of a plain leaf followed by a creator leaf, under a
writable context: every create event targets a creator member, resolve and
open log nothing, and the creator member's Create is invoked first. -/
theorem C4_union_create_dispatch_witness :
    (∀ fuel, ∀ e ∈ (unionCreateCtx fuel ⟨false⟩ 60 [c4A, c4C] "y").2,
      ∃ m, m ∈ [c4A, c4C] ∧ isCreateFS m = true ∧ e = (fsId m, "y")) ∧
    (∀ fuel, (unionResolveFS fuel ⟨false⟩ 60 [c4A, c4C] "y").2 = [] ∧
      (unionOpenCtx fuel ⟨false⟩ 60 [c4A, c4C] "y").2 = []) ∧
    (∀ pre m0 post g, [c4A, c4C] = pre ++ m0 :: post →
      (∀ m ∈ pre, isCreateFS m = false) → isCreateFS m0 = true →
      validPath "y" = true →
      ∃ t, (unionCreateCtx (pre.length + g + 3) ⟨false⟩ 60 [c4A, c4C] "y").2 =
        (fsId m0, "y") :: t) :=
  C4_union_create_dispatch ⟨false⟩ 60 [c4A, c4C] "y" (by
    intro m hm
    simp at hm
    rcases hm with rfl | rfl <;> rfl)

/-- C4 counterexample: the claim's read-only half is false. Under a
read-only context, `UnionFS.CreateContext` still invokes a member's
Creator: the code has no read-only guard. -/
theorem C4_counterexample :
    Ctx.readOnly ⟨true⟩ = true ∧ isCreateFS c4C = true ∧
    (unionCreateCtx 3 ⟨true⟩ 40 [c4C] "y").2 = [(41, "y")] :=
  ⟨rfl, rfl, rfl⟩

end Wanix
